import Mathlib

/-!
# Verification of the yanvox sparse voxel engine core

Shallow embedding of the yanvox repository (Rust) into Lean 4:
the math primitives (`src/math.rs`), the voxel payload contract
(`src/voxel_data.rs`), the tree nodes (`src/voxel/leaf_node.rs`,
`src/voxel/internal_node.rs`, `src/voxel/root_node.rs`), the volume
facade and coordinate iterator (`src/voxel.rs`), and the marching-cubes
extractor (`src/mesh_generation/algorithm.rs`, `src/mesh_generation/mesh.rs`).

Machine integers (`i32`, `usize`) are embedded as `Int`/`Nat`: none of the
verified operations can overflow at the inputs considered, and the bitwise
snapping arithmetic on `Int` coincides with two's-complement `i32`
arithmetic away from the boundary.  `f32` scalars are embedded as `ℚ`
(exact arithmetic standing in for floating point where only the algebraic
structure of the computation is claimed).
-/

set_option autoImplicit false

namespace Yanvox

/-- Source `Vec3i` from `src/math.rs`: 3D vector with integer coordinates. -/
structure Vec3i where
  x : Int
  y : Int
  z : Int
deriving DecidableEq, Repr

/-- Source `Vec3i::new`. -/
def Vec3i.new (x y z : Int) : Vec3i := ⟨x, y, z⟩

/-- Source `Vec3i::zero`. -/
def Vec3i.zero : Vec3i := ⟨0, 0, 0⟩

/-- Componentwise `Vec3i::min`. -/
def Vec3i.minv (a b : Vec3i) : Vec3i := ⟨min a.x b.x, min a.y b.y, min a.z b.z⟩

/-- Componentwise `Vec3i::max`. -/
def Vec3i.maxv (a b : Vec3i) : Vec3i := ⟨max a.x b.x, max a.y b.y, max a.z b.z⟩

/-- Source `impl Add for Vec3i`. -/
instance : Add Vec3i := ⟨fun a b => ⟨a.x + b.x, a.y + b.y, a.z + b.z⟩⟩

/-- Source `impl Sub for Vec3i`. -/
instance : Sub Vec3i := ⟨fun a b => ⟨a.x - b.x, a.y - b.y, a.z - b.z⟩⟩

@[simp] theorem Vec3i.add_def (a b : Vec3i) :
    a + b = ⟨a.x + b.x, a.y + b.y, a.z + b.z⟩ := rfl

/-- Source `Bounds3i` from `src/math.rs`: half-open axis-aligned integer box. -/
structure Bounds3i where
  min : Vec3i
  max : Vec3i
deriving DecidableEq, Repr

/-- Source `Bounds3i::new`. -/
def Bounds3i.new (min max : Vec3i) : Bounds3i := ⟨min, max⟩

/-- Source `Bounds3i::empty`: the sentinel box, `min` at `i32::MAX`, `max` at
`i32::MIN` on every axis. -/
def Bounds3i.empty : Bounds3i :=
  ⟨⟨2147483647, 2147483647, 2147483647⟩, ⟨-2147483648, -2147483648, -2147483648⟩⟩

/-- Source `Bounds3i::contains`: inclusive on `min`, strict on `max`. -/
def Bounds3i.contains (b : Bounds3i) (p : Vec3i) : Bool :=
  p.x ≥ b.min.x && p.x < b.max.x &&
  p.y ≥ b.min.y && p.y < b.max.y &&
  p.z ≥ b.min.z && p.z < b.max.z

/-- Source `Bounds3i::expand_bounds`: componentwise union of two boxes. -/
def Bounds3i.expand_bounds (b o : Bounds3i) : Bounds3i :=
  ⟨b.min.minv o.min, b.max.maxv o.max⟩

/-- Binary AND on naturals, structurally recursive on an explicit fuel so
that it evaluates inside the kernel; `natAnd 32` agrees with the machine
`&` on 32-bit operands. -/
def natAnd : Nat → Nat → Nat → Nat
  | 0, _, _ => 0
  | fuel + 1, a, b => (a % 2) * (b % 2) + 2 * natAnd fuel (a / 2) (b / 2)

/-- Source `i32` bitwise AND embedded on `Int`: reinterpret both operands as
32-bit two's-complement words, AND them, reinterpret the result as `i32`. -/
def i32and (a b : Int) : Int :=
  let r : Int := natAnd 32 (a.emod 4294967296).toNat (b.emod 4294967296).toNat
  if r < 2147483648 then r else r - 4294967296

/-- Source `i32` bitwise NOT (`!a` in Rust) embedded on `Int`: two's complement. -/
def i32not (a : Int) : Int := -1 - a

/-- Snapping of one integer coordinate: `coord & !(size - 1)` from
`ChildNodeTrait::key` in `src/voxel.rs`, with `size = 1 << log2_cum`
embedded as `2 ^ log2c`. -/
def snapInt (log2c : Nat) (a : Int) : Int :=
  i32and a (i32not ((2 : Int) ^ log2c - 1))

/-- Source `ChildNodeTrait::key` (`src/voxel.rs` lines 50-59): snap a coordinate to
the lower corner of the child block of extent `2^log2c` that covers it. -/
def snapKey (log2c : Nat) (c : Vec3i) : Vec3i :=
  ⟨snapInt log2c c.x, snapInt log2c c.y, snapInt log2c c.z⟩

/-- Masking of one integer coordinate to its low `log2` bits:
`coord & ((1 << LOG2) - 1)` from `LeafNode::coord_to_index`. -/
def maskInt (log2 : Nat) (a : Int) : Int :=
  i32and a ((2 : Int) ^ log2 - 1)

/-- The voxel payload contract `VoxelData` from `src/voxel.rs`:
`is_active` and a static `background`. (`Clone`/`PartialEq` are covered
by Lean value semantics and a `DecidableEq` assumption at use sites.) -/
class VoxelData (T : Type) where
  is_active : T → Bool
  background : T

/-- Source `impl VoxelData for f32` from `src/voxel_data.rs`, with `f32` embedded
as `ℚ`: active iff nonzero, background `0.0`. -/
instance : VoxelData ℚ := ⟨fun v => decide (v ≠ 0), 0⟩

/-- Source `IntVoxel` from `src/voxel_data/int_voxel.rs`. -/
structure IntVoxel where
  val : Int
deriving DecidableEq, Repr

/-- Source `impl VoxelData for IntVoxel`: active iff nonzero, background `0`. -/
instance : VoxelData IntVoxel := ⟨fun v => decide (v.val ≠ 0), ⟨0⟩⟩

/-- The uniform child-node interface: the operations `RootNode` and
`InternalNode` invoke on their children through `NodeTrait` /
`ChildNodeTrait` (`src/voxel.rs` lines 19-63), bundled as a record so the
parent code can be written once and instantiated at the three tree shapes.
`get_voxel` is `Option`-valued at this interface (as in
`LeafNode::get_voxel`); the root supplies the background on `none`. -/
structure NodeOps (T : Type) (N : Type) where
  log2_cum : Nat
  create : Vec3i → Nat → T → N
  get_voxel : N → Vec3i → Option T
  set_voxel : N → Vec3i → T → N × Option T
  remove_voxel : N → Vec3i → N × Option T
  active_count : N → Nat
  total_count : N → Nat
  bounds : N → Bounds3i
  active_voxels : N → List (Vec3i × T)
  all_voxels : N → List (Vec3i × T)

/-! ## Leaf nodes (`src/voxel/leaf_node.rs`)

The Rust `LeafNode<T, LOG2>` carries `LOG2` as a const generic; here the
structure is over `T` only and every operation takes `log2` explicitly. -/

/-- Source `LeafNode` fields (`src/voxel/leaf_node.rs` lines 12-28). -/
structure LeafNode (T : Type) where
  background_value : T
  data : List (Option T)
  origin : Vec3i
  bounds : Bounds3i
  level : Nat
  active_count : Nat
deriving DecidableEq, Repr

/-- Source `LeafNode::calculate_dimensions`: `2^LOG2` per axis. -/
def leafDimensions (log2 : Nat) : Vec3i :=
  ⟨(2 : Int) ^ log2, (2 : Int) ^ log2, (2 : Int) ^ log2⟩

variable {T : Type} {N : Type}

/-- Source `LeafNode::new`: dense `None` storage of `dims.x·dims.y·dims.z` slots,
origin at `bounds.min`, zero active count. -/
def leafNew [VoxelData T] (log2 : Nat) (level : Nat) (bounds : Bounds3i) :
    LeafNode T :=
  { background_value := VoxelData.background
    data := List.replicate (2 ^ log2 * 2 ^ log2 * 2 ^ log2) none
    origin := bounds.min
    bounds := bounds
    level := level
    active_count := 0 }

/-- Source `LeafNode::create` (`ChildNodeTrait` impl, lines 277-280): bounds from
the received coordinate to the received coordinate plus the leaf extent.
Both callers (`RootNode::create_child`, `InternalNode::create_child`) pass
the RAW write coordinate here, not the snapped child key, so the stored
box is unaligned whenever the first write to the block is not at its
snapped corner. -/
def leafCreate [VoxelData T] (log2 : Nat) (key : Vec3i) (level : Nat) :
    LeafNode T :=
  leafNew log2 level (Bounds3i.new key (key + leafDimensions log2))

/-- Source `LeafNode::coord_to_index` (lines 69-102): bounds check, then the slot
index `i + j·2^LOG2 + k·2^(2·LOG2)` from the **absolute** coordinate's low
`LOG2` bits per axis. -/
def leafCoordToIndex (log2 : Nat) (l : LeafNode T) (c : Vec3i) : Option Nat :=
  if l.bounds.contains c then
    let i := maskInt log2 c.x
    let j := maskInt log2 c.y
    let k := maskInt log2 c.z
    some (i + j * 2 ^ log2 + k * 2 ^ log2 * 2 ^ log2).toNat
  else
    none

/-- Source `LeafNode::index_to_coord` (lines 105-113): row-major decomposition
plus origin.  The index is nonnegative, so the `i32` divisions are plain
truncating divisions, embedded on `Nat`. -/
def leafIndexToCoord (log2 : Nat) (l : LeafNode T) (index : Nat) : Vec3i :=
  let d : Nat := 2 ^ log2
  let z : Nat := index / (d * d)
  let y : Nat := index % (d * d) / d
  let x : Nat := index % d
  Vec3i.new x y z + l.origin

/-- Source `LeafNode::get_voxel` (lines 197-203): `Option`-valued lookup. -/
def leafGetVoxel (log2 : Nat) (l : LeafNode T) (c : Vec3i) : Option T :=
  match leafCoordToIndex log2 l c with
  | some index => (l.data.get? index).join
  | none => none

/-- Source `LeafNode::set_voxel` (lines 205-225): replace the slot and adjust
`active_count` only when the active status changes.  When the coordinate
is outside the leaf's stored bounds (or the index misses the dense array)
nothing is stored and `None` is returned. -/
def leafSetVoxel [VoxelData T] (log2 : Nat) (l : LeafNode T) (c : Vec3i)
    (value : T) : LeafNode T × Option T :=
  match leafCoordToIndex log2 l c with
  | some index =>
    match l.data.get? index with
    | some slot =>
      let was_active := (slot.map VoxelData.is_active).getD false
      let is_now := VoxelData.is_active value
      let count :=
        if was_active && !is_now then l.active_count - 1
        else if !was_active && is_now then l.active_count + 1
        else l.active_count
      ({ l with data := l.data.set index (some value), active_count := count },
       slot)
    | none => (l, none)
  | none => (l, none)

/-- Source `LeafNode::remove_voxel` (lines 227-239): take the slot's value, and
decrement `active_count` when the removed value was active. -/
def leafRemoveVoxel [VoxelData T] (log2 : Nat) (l : LeafNode T) (c : Vec3i) :
    LeafNode T × Option T :=
  match leafCoordToIndex log2 l c with
  | some index =>
    match l.data.get? index with
    | some (some value) =>
      let count :=
        if VoxelData.is_active value then l.active_count - 1 else l.active_count
      ({ l with data := l.data.set index none, active_count := count },
       some value)
    | _ => (l, none)
  | none => (l, none)

/-- Source `LeafNode::all_voxels` (lines 249-257): every present slot, with its
coordinate reconstructed by `index_to_coord`. -/
def leafAllVoxels (log2 : Nat) (l : LeafNode T) : List (Vec3i × T) :=
  l.data.enum.filterMap fun p =>
    p.2.map fun v => (leafIndexToCoord log2 l p.1, v)

/-- Source `LeafNode::active_voxels` (lines 242-247). -/
def leafActiveVoxels [VoxelData T] (log2 : Nat) (l : LeafNode T) :
    List (Vec3i × T) :=
  (leafAllVoxels log2 l).filter fun p => VoxelData.is_active p.2

/-- Source `LeafNode::total_count` (lines 193-195). -/
def leafTotalCount (l : LeafNode T) : Nat :=
  (l.data.filter Option.isSome).length

/-- The `NodeOps` record of a `LeafNode` with the given `LOG2`. -/
def leafOps (T : Type) [VoxelData T] (log2 : Nat) : NodeOps T (LeafNode T) :=
  { log2_cum := log2
    create := fun key level _bg => leafCreate log2 key level
    get_voxel := leafGetVoxel log2
    set_voxel := leafSetVoxel log2
    remove_voxel := leafRemoveVoxel log2
    active_count := fun l => l.active_count
    total_count := leafTotalCount
    bounds := fun l => l.bounds
    active_voxels := leafActiveVoxels log2
    all_voxels := leafAllVoxels log2 }

/-! ## Internal nodes (`src/voxel/internal_node.rs`)

`InternalNode<T, N, LOG2>` is over the child node type `N`; operations take
its own `log2` and the child's `NodeOps` record explicitly. -/

/-- Source `InternalNode` fields (`src/voxel/internal_node.rs` lines 11-23). -/
structure InternalNode (T : Type) (N : Type) where
  background_value : T
  data : List (Option N)
  origin : Vec3i
  level : Nat
deriving DecidableEq, Repr

/-- Source `InternalNode`'s cumulative LOG2: its own plus the child's. -/
def internalLog2Cum (log2 : Nat) (ops : NodeOps T N) : Nat :=
  log2 + ops.log2_cum

/-- Source `InternalNode::calculate_dimensions`: `2^log2_cum` per axis. -/
def internalDimensions (log2 : Nat) (ops : NodeOps T N) : Vec3i :=
  let d : Int := (2 : Int) ^ internalLog2Cum log2 ops
  ⟨d, d, d⟩

/-- Source `InternalNode::bounds` (lines 184-186). -/
def internalBounds (log2 : Nat) (ops : NodeOps T N) (n : InternalNode T N) :
    Bounds3i :=
  Bounds3i.new n.origin (n.origin + internalDimensions log2 ops)

/-- Source `InternalNode::from_level_and_coord` (lines 27-36): dense `None` child
storage of `2^(3·LOG2)` slots, origin snapped to this node's own key. -/
def internalCreate (log2 : Nat) (ops : NodeOps T N) (coord : Vec3i)
    (level : Nat) (background_value : T) : InternalNode T N :=
  { background_value := background_value
    data := List.replicate (2 ^ log2 * 2 ^ log2 * 2 ^ log2) none
    origin := snapKey (internalLog2Cum log2 ops) coord
    level := level }

/-- Source `InternalNode::coord_to_index` (lines 65-91): bounds check; mask the
coordinate to the node extent, clear the child-extent bits, divide by the
child extent, then row-major combine with the node's own `LOG2`.  The
intermediate values are nonnegative, so the `i32` division is embedded on
`Nat`. -/
def internalCoordToIndex (log2 : Nat) (ops : NodeOps T N)
    (n : InternalNode T N) (c : Vec3i) : Option Nat :=
  if (internalBounds log2 ops n).contains c then
    let L := internalLog2Cum log2 ops
    let cl := ops.log2_cum
    let pick : Int → Nat := fun a =>
      (i32and (maskInt L a) (i32not ((2 : Int) ^ cl - 1))).toNat / 2 ^ cl
    let i := pick c.x
    let j := pick c.y
    let k := pick c.z
    some (i + j * 2 ^ log2 + k * 2 ^ log2 * 2 ^ log2)
  else
    none

/-- Source `InternalNode::find_child` (lines 157-163). -/
def internalFindChild (log2 : Nat) (ops : NodeOps T N) (n : InternalNode T N)
    (c : Vec3i) : Option N :=
  match internalCoordToIndex log2 ops n c with
  | some index => (n.data.get? index).join
  | none => none

/-- Source `InternalNode::get_voxel` (lines 210-216), `Option`-valued at the
`NodeOps` interface: the caller substitutes the (shared) background. -/
def internalGetVoxel (log2 : Nat) (ops : NodeOps T N) (n : InternalNode T N)
    (c : Vec3i) : Option T :=
  (internalFindChild log2 ops n c).bind fun child => ops.get_voxel child c

/-- Source `InternalNode::set_voxel` (lines 218-230): delegate to an existing
child; otherwise create one (via the child factory, handing it the RAW
coordinate) unless the value equals the background, in which case the
write is elided.  The out-of-bounds create (`expect` panic in the source)
is unreachable through the root protocol and modelled as a no-op. -/
def internalSetVoxel [DecidableEq T] (log2 : Nat) (ops : NodeOps T N)
    (n : InternalNode T N) (c : Vec3i) (value : T) :
    InternalNode T N × Option T :=
  match internalCoordToIndex log2 ops n c with
  | some index =>
    match (n.data.get? index).join with
    | some child =>
      let r := ops.set_voxel child c value
      ({ n with data := n.data.set index (some r.1) }, r.2)
    | none =>
      if n.background_value ≠ value then
        let child := ops.create c (n.level + 1) n.background_value
        let r := ops.set_voxel child c value
        ({ n with data := n.data.set index (some r.1) }, r.2)
      else
        (n, none)
  | none => (n, none)

/-- Source `InternalNode::remove_voxel` (lines 232-238). -/
def internalRemoveVoxel (log2 : Nat) (ops : NodeOps T N)
    (n : InternalNode T N) (c : Vec3i) : InternalNode T N × Option T :=
  match internalCoordToIndex log2 ops n c with
  | some index =>
    match (n.data.get? index).join with
    | some child =>
      let r := ops.remove_voxel child c
      ({ n with data := n.data.set index (some r.1) }, r.2)
    | none => (n, none)
  | none => (n, none)

/-- Source `InternalNode::active_count` (lines 196-201). -/
def internalActiveCount (ops : NodeOps T N) (n : InternalNode T N) : Nat :=
  ((n.data.filterMap id).map ops.active_count).sum

/-- Source `InternalNode::total_count` (lines 203-208). -/
def internalTotalCount (ops : NodeOps T N) (n : InternalNode T N) : Nat :=
  ((n.data.filterMap id).map ops.total_count).sum

/-- Source `InternalNode::active_voxels` (lines 241-247). -/
def internalActiveVoxels (ops : NodeOps T N) (n : InternalNode T N) :
    List (Vec3i × T) :=
  (n.data.filterMap id).flatMap ops.active_voxels

/-- Source `InternalNode::all_voxels` (lines 249-255). -/
def internalAllVoxels (ops : NodeOps T N) (n : InternalNode T N) :
    List (Vec3i × T) :=
  (n.data.filterMap id).flatMap ops.all_voxels

/-- The `NodeOps` record of an `InternalNode` over child ops. -/
def internalOps [DecidableEq T] (log2 : Nat) (ops : NodeOps T N) :
    NodeOps T (InternalNode T N) :=
  { log2_cum := internalLog2Cum log2 ops
    create := internalCreate log2 ops
    get_voxel := internalGetVoxel log2 ops
    set_voxel := internalSetVoxel log2 ops
    remove_voxel := internalRemoveVoxel log2 ops
    active_count := internalActiveCount ops
    total_count := internalTotalCount ops
    bounds := internalBounds log2 ops
    active_voxels := internalActiveVoxels ops
    all_voxels := internalAllVoxels ops }

/-! ## Root node (`src/voxel/root_node.rs`)

The `HashMap<Vec3i, N>` is embedded as an association list with
`HashMap` lookup/insert semantics (at most one entry per key). -/

/-- Source `HashMap::get`. -/
def lookupKey (l : List (Vec3i × N)) (k : Vec3i) : Option N :=
  (l.find? fun p => p.1 == k).map Prod.snd

/-- Source `HashMap::insert`: replace the entry when the key is present. -/
def insertKey (l : List (Vec3i × N)) (k : Vec3i) (n : N) :
    List (Vec3i × N) :=
  match l with
  | [] => [(k, n)]
  | p :: rest => if p.1 == k then (k, n) :: rest else p :: insertKey rest k n

/-- Source `RootNode` fields (`src/voxel/root_node.rs` lines 41-48). -/
structure RootNode (T : Type) (N : Type) where
  level : Nat
  background_value : T
  children : List (Vec3i × N)
deriving DecidableEq, Repr

/-- Source `RootNode::default` (lines 74-82): reject an active background
(a `panic!` in the source, embedded as `Except.error`); otherwise level 0,
the payload's background, and no children. -/
def rootDefault (T : Type) (N : Type) [VoxelData T] :
    Except String (RootNode T N) :=
  let background_value : T := VoxelData.background
  if VoxelData.is_active background_value then
    Except.error "Background value is active"
  else
    Except.ok { level := 0, background_value := background_value, children := [] }

/-- The root produced by a successful `RootNode::default`. -/
def freshRoot (T : Type) (N : Type) [VoxelData T] : RootNode T N :=
  { level := 0, background_value := VoxelData.background, children := [] }

/-- Source `RootNode::find_child` (lines 145-148). -/
def rootFindChild (ops : NodeOps T N) (r : RootNode T N) (c : Vec3i) :
    Option N :=
  lookupKey r.children (snapKey ops.log2_cum c)

/-- Source `RootNode::get_voxel` (lines 281-287) restricted to the stored part:
`none` when no child covers `c` or the covering subtree has no entry. -/
def rootGetVoxelOpt (ops : NodeOps T N) (r : RootNode T N) (c : Vec3i) :
    Option T :=
  (rootFindChild ops r c).bind fun child => ops.get_voxel child c

/-- Source `RootNode::get_voxel`: the stored payload, or a borrow of the root's
background on a miss.  (Every node of a tree carries the same background,
propagated at creation, so falling back at the root is observably the
same as the per-node fallback.) -/
def rootGetVoxel (ops : NodeOps T N) (r : RootNode T N) (c : Vec3i) : T :=
  (rootGetVoxelOpt ops r c).getD r.background_value

/-- Source `RootNode::is_active` (lines 235-237). -/
def rootIsActive [VoxelData T] (ops : NodeOps T N) (r : RootNode T N)
    (c : Vec3i) : Bool :=
  VoxelData.is_active (rootGetVoxel ops r c)

/-- Source `RootNode::set_voxel` (lines 303-315): delegate to an existing child;
otherwise create one (`RootNode::create_child`, lines 97-102, which keys
by the snapped `child_key` but hands the child factory the RAW `coord`)
unless the value equals the background, in which case do nothing. -/
def rootSetVoxel [DecidableEq T] (ops : NodeOps T N) (r : RootNode T N)
    (c : Vec3i) (value : T) : RootNode T N × Option T :=
  let k := snapKey ops.log2_cum c
  match lookupKey r.children k with
  | some child =>
    let res := ops.set_voxel child c value
    ({ r with children := insertKey r.children k res.1 }, res.2)
  | none =>
    if r.background_value ≠ value then
      let child := ops.create c (r.level + 1) r.background_value
      let res := ops.set_voxel child c value
      ({ r with children := insertKey r.children k res.1 }, res.2)
    else
      (r, none)

/-- Source `RootNode::remove_voxel` (lines 331-337): `None` when no child covers
the coordinate. -/
def rootRemoveVoxel (ops : NodeOps T N) (r : RootNode T N) (c : Vec3i) :
    RootNode T N × Option T :=
  let k := snapKey ops.log2_cum c
  match lookupKey r.children k with
  | some child =>
    let res := ops.remove_voxel child c
    ({ r with children := insertKey r.children k res.1 }, res.2)
  | none => (r, none)

/-- Source `RootNode::active_count` (lines 247-251). -/
def rootActiveCount (ops : NodeOps T N) (r : RootNode T N) : Nat :=
  (r.children.map fun p => ops.active_count p.2).sum

/-- Source `RootNode::total_count` (lines 262-266). -/
def rootTotalCount (ops : NodeOps T N) (r : RootNode T N) : Nat :=
  (r.children.map fun p => ops.total_count p.2).sum

/-- The fold step of `RootNode::bounds`: absorb a child box, replacing a
sentinel accumulator. -/
def boundsStep (acc b : Bounds3i) : Bounds3i :=
  if acc = Bounds3i.empty then b else acc.expand_bounds b

/-- Source `RootNode::bounds` (lines 206-220): the empty sentinel when there are
no children, else a fold of `expand_bounds` over the children's boxes that
skips the sentinel accumulator. -/
def rootBounds (ops : NodeOps T N) (r : RootNode T N) : Bounds3i :=
  if r.children.isEmpty then
    Bounds3i.empty
  else
    (r.children.map fun p => ops.bounds p.2).foldl boundsStep Bounds3i.empty

/-- Source `RootNode::active_voxels` (lines 353-358). -/
def rootActiveVoxels (ops : NodeOps T N) (r : RootNode T N) :
    List (Vec3i × T) :=
  r.children.flatMap fun p => ops.active_voxels p.2

/-- Source `NodeDiagnostics::child_count` for the root (lines 425-427). -/
def rootChildCount (r : RootNode T N) : Nat :=
  r.children.length

/-! ## The three tree shapes (`VoxelVolume::with_config`, `src/voxel.rs`
lines 100-110) -/

/-- Source `Default` shape: `Root → Leaf(LOG2=2)`. -/
def defaultOps (T : Type) [VoxelData T] : NodeOps T (LeafNode T) :=
  leafOps T 2

/-- Source `Hashx2x1` shape: `Root → Internal(LOG2=2) → Leaf(LOG2=1)`. -/
def hashx2x1Ops (T : Type) [VoxelData T] [DecidableEq T] :
    NodeOps T (InternalNode T (LeafNode T)) :=
  internalOps 2 (leafOps T 1)

/-- Source `Hashx5x4` shape: `Root → Internal(LOG2=5) → Leaf(LOG2=4)`. -/
def hashx5x4Ops (T : Type) [VoxelData T] [DecidableEq T] :
    NodeOps T (InternalNode T (LeafNode T)) :=
  internalOps 5 (leafOps T 4)

/-! ## Volume facade (`src/voxel.rs`)

World coordinates (`Vec3f`, `f32`) are embedded as rational triples. -/

/-- Source `Vec3f` from `src/math.rs`, embedded over `ℚ`. -/
structure Vec3q where
  x : ℚ
  y : ℚ
  z : ℚ
deriving DecidableEq, Repr

/-- Source `impl Add for Vec3f`. -/
instance : Add Vec3q := ⟨fun a b => ⟨a.x + b.x, a.y + b.y, a.z + b.z⟩⟩

/-- Source `impl Sub for Vec3f`. -/
instance : Sub Vec3q := ⟨fun a b => ⟨a.x - b.x, a.y - b.y, a.z - b.z⟩⟩

/-- Source `Vec3f::scale`. -/
def Vec3q.scale (v : Vec3q) (f : ℚ) : Vec3q := ⟨v.x * f, v.y * f, v.z * f⟩

/-- Source `Vec3i::as_vec3f`. -/
def Vec3i.as_vec3f (v : Vec3i) : Vec3q := ⟨v.x, v.y, v.z⟩

/-- Rust `as i32` on a scalar: truncation toward zero. -/
def ratTrunc (q : ℚ) : Int := Int.tdiv q.num q.den

/-- Source `Vec3f::as_vec3i`: componentwise truncation toward zero. -/
def Vec3q.as_vec3i (v : Vec3q) : Vec3i := ⟨ratTrunc v.x, ratTrunc v.y, ratTrunc v.z⟩

/-- Source `VoxelVolume::cv_coord` / `world_to_voxel_coord` (lines 112-115):
`voxel = (world · (1/leaf_voxel_size)) as i32`. -/
def worldToVoxelCoord (size : ℚ) (w : Vec3q) : Vec3i :=
  (w.scale (1 / size)).as_vec3i

/-- Source `VoxelVolume::voxel_to_world_coord` (lines 261-264):
`world = voxel · leaf_voxel_size`. -/
def voxelToWorldCoord (size : ℚ) (c : Vec3i) : Vec3q :=
  c.as_vec3f.scale size

/-- One advance step of `VoxelCoordIterator::next` (`src/voxel.rs` lines
364-390): bump `x`; on reaching `max.x` reset it and bump `y`; on reaching
`max.y` reset it and bump `z`; on reaching `max.z` the iterator is
finished (`none`). -/
def iterAdvance (mn mx c : Vec3i) : Option Vec3i :=
  let x := c.x + 1
  if x ≥ mx.x then
    let y := c.y + 1
    if y ≥ mx.y then
      let z := c.z + 1
      if z ≥ mx.z then none else some ⟨mn.x, mn.y, z⟩
    else some ⟨mn.x, y, c.z⟩
  else some ⟨x, c.y, c.z⟩

/-- An advance step strictly decreases the lexicographic distance to the
upper corner (z outermost). -/
theorem iterAdvance_measure (mn mx c c2 : Vec3i)
    (h : iterAdvance mn mx c = some c2) :
    Prod.Lex (· < ·) (Prod.Lex (· < ·) (· < ·))
      ((mx.z - c2.z).toNat, (mx.y - c2.y).toNat, (mx.x - c2.x).toNat)
      ((mx.z - c.z).toNat, (mx.y - c.y).toNat, (mx.x - c.x).toNat) := by
  unfold iterAdvance at h
  simp only at h
  split_ifs at h with h1 h2 h3
  all_goals cases h
  all_goals first
    | exact Prod.Lex.left _ _
        (show (mx.z - (c.z + 1)).toNat < (mx.z - c.z).toNat by omega)
    | exact Prod.Lex.right _ (Prod.Lex.left _ _
        (show (mx.y - (c.y + 1)).toNat < (mx.y - c.y).toNat by omega))
    | exact Prod.Lex.right _ (Prod.Lex.right _
        (show (mx.x - (c.x + 1)).toNat < (mx.x - c.x).toNat by omega))

/-- The full sequence of coordinates yielded by `VoxelCoordIterator`
starting at `c`: the current coordinate is yielded unconditionally, then
the iterator advances (`next` checks the bounds only while advancing,
never before yielding). -/
def coordIterFrom (mn mx c : Vec3i) : List Vec3i :=
  c ::
    (match h : iterAdvance mn mx c with
     | none => []
     | some c2 => coordIterFrom mn mx c2)
termination_by ((mx.z - c.z).toNat, (mx.y - c.y).toNat, (mx.x - c.x).toNat)
decreasing_by exact iterAdvance_measure mn mx c c2 h

/-- The coordinates visited by `for coord in VoxelCoordIterator::new(min, max)`:
iteration starts at `current = min`. -/
def voxelCoordList (mn mx : Vec3i) : List Vec3i :=
  coordIterFrom mn mx mn

/-- The loop body of `VoxelVolume::fill_bounds` (lines 215-227): call the
generator at the world position of the voxel coordinate; on `Some`, set
the voxel and count it. -/
def fillStep [DecidableEq T] (ops : NodeOps T N) (gen : Vec3q → Option T)
    (size : ℚ) (s : RootNode T N × Nat) (c : Vec3i) : RootNode T N × Nat :=
  match gen (voxelToWorldCoord size c) with
  | some value => ((rootSetVoxel ops s.1 c value).1, s.2 + 1)
  | none => s

/-- Source `VoxelVolume::fill_bounds` (lines 215-227): convert the world bounds
to voxel coordinates, run the coordinate iterator, and fold the loop body.
Returns the mutated volume together with the accepted-call count. -/
def fillBounds [DecidableEq T] (ops : NodeOps T N) (r : RootNode T N)
    (size : ℚ) (minw maxw : Vec3q) (gen : Vec3q → Option T) :
    RootNode T N × Nat :=
  let mn := worldToVoxelCoord size minw
  let mx := worldToVoxelCoord size maxw
  (voxelCoordList mn mx).foldl (fillStep ops gen size) (r, 0)

/-- The integers of `[a, b)` in increasing order. -/
def rangeInt (a b : Int) : List Int :=
  if a < b then a :: rangeInt (a + 1) b else []
termination_by (b - a).toNat
decreasing_by omega

/-- Modelled from the spec: the coordinates of the half-open box
`[mn, mx)` in x-fastest, then y, then z order (spec of `fill_bounds`).
This is the enumeration the spec promises; `voxelCoordList` is what the
code walks. -/
def boxList (mn mx : Vec3i) : List Vec3i :=
  (rangeInt mn.z mx.z).flatMap fun z =>
    (rangeInt mn.y mx.y).flatMap fun y =>
      (rangeInt mn.x mx.x).map fun x => ⟨x, y, z⟩

/-- Modelled from the spec: `fill_bounds` as §4.3 describes it — fold the
same loop body over exactly the half-open box. -/
def fillBoundsSpec [DecidableEq T] (ops : NodeOps T N) (r : RootNode T N)
    (size : ℚ) (minw maxw : Vec3q) (gen : Vec3q → Option T) :
    RootNode T N × Nat :=
  (boxList (worldToVoxelCoord size minw) (worldToVoxelCoord size maxw)).foldl
    (fillStep ops gen size) (r, 0)

/-! ## Marching-cubes extractor (`src/mesh_generation/mesh.rs`,
`src/mesh_generation/algorithm.rs`)

The lookup tables live in `src/mesh_generation/marching_cubes.rs`, which
is not among the provided sources; `process_cube` and
`interpolate_edge_vertex` below therefore take the tables as parameters
(the verified properties hold for every table).  The corner-offset table
is pinned by the spec (§4.4) and given concretely.  The volume enters the
algorithm only through `VoxelVolume::get_voxel`, so it is abstracted as a
total lookup function, and the `SignedDistance` capability (declared in
the missing part of `src/voxel.rs`) as a function `sd : T → ℚ`. -/

/-- Source `Mesh` (`src/mesh_generation/mesh.rs`): vertex list and triangle list,
a triangle being a triple of vertex indices. -/
structure Mesh where
  vertices : List Vec3q
  triangles : List (Nat × Nat × Nat)
deriving DecidableEq, Repr

/-- Source `Mesh::new`. -/
def meshNew : Mesh := ⟨[], []⟩

/-- Source `Mesh::add_vertex`: push and return the new index (`len - 1`). -/
def meshAddVertex (m : Mesh) (v : Vec3q) : Mesh × Nat :=
  ({ m with vertices := m.vertices ++ [v] }, m.vertices.length)

/-- Source `Mesh::add_triangle`. -/
def meshAddTriangle (m : Mesh) (t : Nat × Nat × Nat) : Mesh :=
  { m with triangles := m.triangles ++ [t] }

/-- Modelled from the spec: `CORNER_OFFSETS` of the missing
`src/mesh_generation/marching_cubes.rs`, exactly the eight offsets listed
in §4.4. -/
def cornerOffsets : List Vec3i :=
  [⟨0,0,0⟩, ⟨1,0,0⟩, ⟨1,1,0⟩, ⟨0,1,0⟩, ⟨0,0,1⟩, ⟨1,0,1⟩, ⟨1,1,1⟩, ⟨0,1,1⟩]

/-- Corner offset `i` (total lookup). -/
def cornerOffset (i : Nat) : Vec3i := cornerOffsets.getD i ⟨0,0,0⟩

/-- Test of bit `i` of a mask: `(mask & (1 << i)) != 0`, embedded as a
shift so it evaluates in the kernel. -/
def bitSet (n i : Nat) : Bool := decide (n >>> i % 2 = 1)

/-- Source `MarchingCubesAlgorithm::get_cube_corner_values` (lines 98-113):
probe the eight corners; if any is inactive return `None`, otherwise the
eight signed distances in corner order.  (The source early-returns at the
first inactive corner; with a pure volume lookup the result is the
same.) -/
def getCubeCornerValues [VoxelData T] (g : Vec3i → T) (sd : T → ℚ)
    (coord : Vec3i) : Option (List ℚ) :=
  let voxels := cornerOffsets.map fun off => g (coord + off)
  if voxels.all VoxelData.is_active then some (voxels.map sd) else none

/-- Source `MarchingCubesAlgorithm::calculate_cube_index` (lines 116-126): the
loop `cube_index |= 1 << i` over corners with `value < iso_level`; each
`|=` sets a fresh bit `i`, i.e. adds `2^i`. -/
def calculateCubeIndex (values : List ℚ) (iso : ℚ) : Nat :=
  (values.enum.map fun p => if p.2 < iso then 2 ^ p.1 else 0).sum

/-- Source `f32::clamp(lo, hi)`. -/
def clampQ (t lo hi : ℚ) : ℚ := min (max t lo) hi

/-- The interpolation factor of
`MarchingCubesAlgorithm::interpolate_edge_vertex` (lines 144-152):
`0.5` when `|val2 - val1| < 1e-6`, else `(iso - val1) / (val2 - val1)`,
then clamped to `[0, 1]`. -/
def interpFactor (val1 val2 iso : ℚ) : ℚ :=
  let t : ℚ := if |val2 - val1| < 1 / 1000000 then 1 / 2
               else (iso - val1) / (val2 - val1)
  clampQ t 0 1

/-- Source `MarchingCubesAlgorithm::interpolate_edge_vertex` (lines 129-162),
with the `EDGE_VERTEX_INDICES` table as a parameter: corner positions are
`(coord + offset) · leaf_size`, and the vertex is `pos1 + t·(pos2 - pos1)`. -/
def interpolateEdgeVertex (edgeTable : Nat → Nat × Nat) (values : List ℚ)
    (coord : Vec3i) (edge : Nat) (iso leafSize : ℚ) : Vec3q :=
  let ei := edgeTable edge
  let val1 := values.getD ei.1 0
  let val2 := values.getD ei.2 0
  let t := interpFactor val1 val2 iso
  let pos1 := (coord + cornerOffset ei.1).as_vec3f.scale leafSize
  let pos2 := (coord + cornerOffset ei.2).as_vec3f.scale leafSize
  pos1 + (pos2 - pos1).scale t

/-- Modelled from the spec: the standard edge-to-corner table
(`EDGE_VERTEX_INDICES` of the missing `marching_cubes.rs`): bottom ring,
top ring, vertical edges. -/
def edgeVertexIndices (e : Nat) : Nat × Nat :=
  [(0,1), (1,2), (2,3), (3,0), (4,5), (5,6), (6,7), (7,4),
   (0,4), (1,5), (2,6), (3,7)].getD e (0, 0)

/-- The `while i < 16 && triangle_data[i] != -1` loop of
`MarchingCubesAlgorithm::process_cube` (lines 77-91): per step, add the
three edge vertices to the mesh and record a triangle of their indices. -/
def emitTriangles (row : Nat → Int) (ev : Nat → Vec3q) (mesh : Mesh)
    (i : Nat) : Mesh :=
  if h : i < 16 ∧ row i ≠ -1 then
    let m1 := meshAddVertex mesh (ev (row i).toNat)
    let m2 := meshAddVertex m1.1 (ev (row (i + 1)).toNat)
    let m3 := meshAddVertex m2.1 (ev (row (i + 2)).toNat)
    emitTriangles row ev (meshAddTriangle m3.1 (m1.2, m2.2, m3.2)) (i + 3)
  else
    mesh
termination_by 16 - i
decreasing_by omega

/-- Source `MarchingCubesAlgorithm::process_cube` (lines 39-95), with the
`EDGE_MASKS` row-lookup, `TRIANGLE_TABLE` row lookup and edge table as
parameters: skip the cube when a corner is inactive or when the cube
index is 0 or 255; otherwise interpolate the masked edges and emit the
triangles of the row. -/
def processCube [VoxelData T] (g : Vec3i → T) (sd : T → ℚ)
    (edgeMasks : Nat → Nat) (triTable : Nat → Nat → Int)
    (edgeTable : Nat → Nat × Nat) (mesh : Mesh) (coord : Vec3i)
    (iso leafSize : ℚ) : Mesh :=
  match getCubeCornerValues g sd coord with
  | none => mesh
  | some values =>
    let cube_index := calculateCubeIndex values iso
    if cube_index = 0 ∨ cube_index = 255 then
      mesh
    else
      let edge_mask := edgeMasks cube_index
      let edge_vertices : Nat → Vec3q := fun e =>
        if e < 12 ∧ bitSet edge_mask e then
          interpolateEdgeVertex edgeTable values coord e iso leafSize
        else
          ⟨0, 0, 0⟩
      emitTriangles (triTable cube_index) edge_vertices mesh 0

/-- A demonstration payload violating the inactive-background contract
(`background().is_active() == true`); it exercises the rejection path of
`RootNode::default`. -/
structure ActiveBgVoxel where
  flag : Bool
deriving DecidableEq, Repr

instance : VoxelData ActiveBgVoxel := ⟨fun _ => true, ⟨true⟩⟩

/-! ## Supporting lemmas -/

/-- The coordinate iterator always yields its starting coordinate first. -/
theorem coordIterFrom_head (mn mx c : Vec3i) :
    (coordIterFrom mn mx c).head? = some c := by
  rw [coordIterFrom]
  rfl

/-- The coordinate iterator's yield list is its starting coordinate
followed by some tail. -/
theorem coordIterFrom_cons (mn mx c : Vec3i) :
    ∃ rest, coordIterFrom mn mx c = c :: rest := by
  rw [coordIterFrom]
  exact ⟨_, rfl⟩

/-- Folding the `fill_bounds` loop body never decreases the accepted
count. -/
theorem fillStep_count_mono [DecidableEq T] (ops : NodeOps T N)
    (gen : Vec3q → Option T) (size : ℚ) (l : List Vec3i) :
    ∀ s : RootNode T N × Nat, s.2 ≤ (l.foldl (fillStep ops gen size) s).2 := by
  induction l with
  | nil => intro s; exact Nat.le_refl _
  | cons c rest ih =>
    intro s
    refine Nat.le_trans ?_ (ih (fillStep ops gen size s c))
    unfold fillStep
    cases gen (voxelToWorldCoord size c) <;> simp

/-- Little-endian bit accumulator: the value of the loop
`for i: if values[i] < iso then idx |= 1 << i`, peeled from the front. -/
def cubeBits (iso : ℚ) : List ℚ → Nat
  | [] => 0
  | v :: vs => (if v < iso then 1 else 0) + 2 * cubeBits iso vs

theorem enumFrom_pow_sum (iso : ℚ) (vs : List ℚ) : ∀ n : Nat,
    ((List.enumFrom n vs).map fun p => if p.2 < iso then 2 ^ p.1 else 0).sum
      = 2 ^ n * cubeBits iso vs := by
  induction vs with
  | nil => intro n; simp [cubeBits]
  | cons v rest ih =>
    intro n
    simp only [List.enumFrom, List.map_cons, List.sum_cons, ih (n + 1), cubeBits]
    by_cases hv : v < iso <;> simp [hv] <;> ring

theorem calculateCubeIndex_eq_cubeBits (values : List ℚ) (iso : ℚ) :
    calculateCubeIndex values iso = cubeBits iso values := by
  have h := enumFrom_pow_sum iso values 0
  simpa [calculateCubeIndex, List.enum] using h

theorem bitSet_succ (n i : Nat) : bitSet n (i + 1) = bitSet (n / 2) i := by
  simp only [bitSet, Nat.shiftRight_eq_div_pow]
  rw [Nat.pow_succ, Nat.mul_comm, ← Nat.div_div_eq_div_mul]

theorem cubeBits_testBit (iso : ℚ) : ∀ (vs : List ℚ) (i : Nat),
    i < vs.length →
    bitSet (cubeBits iso vs) i = decide (vs.getD i 0 < iso) := by
  intro vs
  induction vs with
  | nil => intro i h; simp at h
  | cons v rest ih =>
    intro i h
    cases i with
    | zero =>
      show decide ((cubeBits iso (v :: rest)) >>> 0 % 2 = 1) = _
      rw [Nat.shiftRight_zero]
      by_cases hv : v < iso <;> simp [cubeBits, hv, Nat.add_mul_mod_self_left]
    | succ i =>
      rw [bitSet_succ]
      have hdiv : cubeBits iso (v :: rest) / 2 = cubeBits iso rest := by
        show ((if v < iso then 1 else 0) + 2 * cubeBits iso rest) / 2 = _
        by_cases hv : v < iso <;> simp [hv] <;> omega
      rw [hdiv, List.getD_cons_succ]
      exact ih i (by simpa using h)

theorem cubeBits_lt (iso : ℚ) : ∀ vs : List ℚ,
    cubeBits iso vs < 2 ^ vs.length := by
  intro vs
  induction vs with
  | nil => simp [cubeBits]
  | cons v rest ih =>
    show (if v < iso then 1 else 0) + 2 * cubeBits iso rest < 2 ^ (rest.length + 1)
    rw [Nat.pow_succ]
    by_cases hv : v < iso <;> simp [hv] <;> omega

/-- Well-formed mesh: every triangle's three vertex indices are valid. -/
def meshWF (m : Mesh) : Prop :=
  ∀ t ∈ m.triangles,
    t.1 < m.vertices.length ∧ t.2.1 < m.vertices.length
      ∧ t.2.2 < m.vertices.length

theorem meshWF_add3 (mesh : Mesh) (v1 v2 v3 : Vec3q) (hwf : meshWF mesh) :
    meshWF (meshAddTriangle
      (meshAddVertex (meshAddVertex (meshAddVertex mesh v1).1 v2).1 v3).1
      ((meshAddVertex mesh v1).2,
       (meshAddVertex (meshAddVertex mesh v1).1 v2).2,
       (meshAddVertex (meshAddVertex (meshAddVertex mesh v1).1 v2).1 v3).2)) := by
  intro t ht
  simp only [meshAddTriangle, meshAddVertex, List.mem_append,
    List.mem_singleton, List.length_append, List.length_singleton] at ht ⊢
  rcases ht with ht | ht
  · have h := hwf t ht
    refine ⟨by omega, by omega, by omega⟩
  · subst ht
    refine ⟨?_, ?_, ?_⟩ <;> simp <;> omega

theorem emitTriangles_meshWF (row : Nat → Int) (ev : Nat → Vec3q) :
    ∀ (k i : Nat) (mesh : Mesh), 16 - i ≤ k → meshWF mesh →
      meshWF (emitTriangles row ev mesh i) := by
  intro k
  induction k with
  | zero =>
    intro i mesh hk hwf
    rw [emitTriangles]
    rw [dif_neg (by omega : ¬(i < 16 ∧ row i ≠ -1))]
    exact hwf
  | succ k ih =>
    intro i mesh hk hwf
    rw [emitTriangles]
    by_cases h : i < 16 ∧ row i ≠ -1
    · rw [dif_pos h]
      exact ih (i + 3) _ (by omega) (meshWF_add3 mesh _ _ _ hwf)
    · rw [dif_neg h]
      exact hwf

/-- The tail of the iteration after a row at `(·, cy, cz)` is exhausted. -/
def afterRow (mn mx : Vec3i) (cy cz : Int) : List Vec3i :=
  if cy + 1 ≥ mx.y then
    (if cz + 1 ≥ mx.z then [] else coordIterFrom mn mx ⟨mn.x, mn.y, cz + 1⟩)
  else coordIterFrom mn mx ⟨mn.x, cy + 1, cz⟩

/-- The tail of the iteration after the plane at `cz` is exhausted. -/
def afterPlane (mn mx : Vec3i) (cz : Int) : List Vec3i :=
  if cz + 1 ≥ mx.z then [] else coordIterFrom mn mx ⟨mn.x, mn.y, cz + 1⟩

theorem rangeInt_pos (a b : Int) (h : a < b) :
    rangeInt a b = a :: rangeInt (a + 1) b := by
  rw [rangeInt, if_pos h]

theorem rangeInt_neg (a b : Int) (h : ¬ a < b) : rangeInt a b = [] := by
  rw [rangeInt, if_neg h]

/-- A row of the iteration: starting inside the x-range at `(cx, cy, cz)`,
the iterator yields the rest of the row and then continues at the next
row. -/
theorem coordIterFrom_row (mn mx : Vec3i) (cy cz : Int) :
    ∀ (n : Nat) (cx : Int), (mx.x - cx).toNat ≤ n → cx < mx.x →
      coordIterFrom mn mx ⟨cx, cy, cz⟩
        = (rangeInt cx mx.x).map (fun x => ⟨x, cy, cz⟩)
          ++ afterRow mn mx cy cz := by
  intro n
  induction n with
  | zero => intro cx hn hcx; omega
  | succ n ih =>
    intro cx hn hcx
    rw [coordIterFrom, rangeInt_pos cx mx.x hcx]
    simp only [List.map_cons, List.cons_append]
    congr 1
    split
    next heq =>
      unfold iterAdvance at heq
      simp only at heq
      split_ifs at heq with h1 h2 h3
      rw [rangeInt_neg _ _ (by omega)]
      unfold afterRow
      rw [if_pos (by omega), if_pos (by omega)]
      simp
    next c2 heq =>
      unfold iterAdvance at heq
      simp only at heq
      split_ifs at heq with h1 h2 h3
      all_goals cases heq
      · rw [rangeInt_neg _ _ (by omega)]
        unfold afterRow
        rw [if_pos (by omega), if_neg (by omega)]
        simp
      · rw [rangeInt_neg _ _ (by omega)]
        unfold afterRow
        rw [if_neg (by omega)]
        simp
      · rw [ih (cx + 1) (by omega) (by omega)]

/-- A plane of the iteration: starting at the left edge of a row inside
the y-range, the iterator yields the remaining rows of the plane and then
continues at the next plane. -/
theorem coordIterFrom_plane (mn mx : Vec3i) (cz : Int) (hx : mn.x < mx.x) :
    ∀ (n : Nat) (cy : Int), (mx.y - cy).toNat ≤ n → cy < mx.y →
      coordIterFrom mn mx ⟨mn.x, cy, cz⟩
        = ((rangeInt cy mx.y).flatMap fun y =>
            (rangeInt mn.x mx.x).map fun x => ⟨x, y, cz⟩)
          ++ afterPlane mn mx cz := by
  intro n
  induction n with
  | zero => intro cy hn hcy; omega
  | succ n ih =>
    intro cy hn hcy
    rw [coordIterFrom_row mn mx cy cz (mx.x - mn.x).toNat mn.x (le_refl _) hx,
      rangeInt_pos cy mx.y hcy]
    simp only [List.flatMap_cons, List.append_assoc]
    congr 1
    unfold afterRow
    by_cases hy1 : cy + 1 ≥ mx.y
    · rw [if_pos hy1, rangeInt_neg _ _ (by omega)]
      simp [afterPlane]
    · rw [if_neg hy1, ih (cy + 1) (by omega) (by omega)]

/-- The whole iteration: starting at the low corner of a plane inside the
z-range, the iterator yields exactly the remaining planes of the box. -/
theorem coordIterFrom_box (mn mx : Vec3i) (hx : mn.x < mx.x)
    (hy : mn.y < mx.y) :
    ∀ (n : Nat) (cz : Int), (mx.z - cz).toNat ≤ n → cz < mx.z →
      coordIterFrom mn mx ⟨mn.x, mn.y, cz⟩
        = (rangeInt cz mx.z).flatMap fun z =>
            (rangeInt mn.y mx.y).flatMap fun y =>
              (rangeInt mn.x mx.x).map fun x => ⟨x, y, z⟩ := by
  intro n
  induction n with
  | zero => intro cz hn hcz; omega
  | succ n ih =>
    intro cz hn hcz
    rw [coordIterFrom_plane mn mx cz hx (mx.y - mn.y).toNat mn.y (le_refl _) hy,
      rangeInt_pos cz mx.z hcz]
    simp only [List.flatMap_cons, List.append_assoc]
    congr 1
    unfold afterPlane
    by_cases hz1 : cz + 1 ≥ mx.z
    · rw [if_pos hz1, rangeInt_neg _ _ (by omega)]
      simp
    · rw [if_neg hz1, ih (cz + 1) (by omega) (by omega)]

/-- When the voxel box is nonempty on every axis, the coordinate iterator
visits exactly the spec's half-open box, in x-fastest, then y, then z
order. -/
theorem voxelCoordList_eq_boxList (mn mx : Vec3i) (hx : mn.x < mx.x)
    (hy : mn.y < mx.y) (hz : mn.z < mx.z) :
    voxelCoordList mn mx = boxList mn mx := by
  unfold voxelCoordList boxList
  have h := coordIterFrom_box mn mx hx hy (mx.z - mn.z).toNat mn.z (le_refl _) hz
  exact h

/-- The accepted count of the `fill_bounds` fold is the number of visited
coordinates the generator accepts. -/
theorem fillStep_count (ops : NodeOps T N) [inst : DecidableEq T]
    (gen : Vec3q → Option T) (size : ℚ) :
    ∀ (l : List Vec3i) (s : RootNode T N × Nat),
      (l.foldl (fillStep ops gen size) s).2
        = s.2 + l.countP (fun c => (gen (voxelToWorldCoord size c)).isSome) := by
  intro l
  induction l with
  | nil => intro s; simp
  | cons c rest ih =>
    intro s
    rw [List.foldl_cons, ih, List.countP_cons]
    unfold fillStep
    rcases hg : gen (voxelToWorldCoord size c) with _ | v <;> simp [hg] <;> omega

/-- Well-formed leaf: the stored box spans exactly one leaf extent from
the origin, and the dense array has full capacity.  Holds for every leaf
the tree ever creates and is preserved by every mutation. -/
def WFLeaf (log2 : Nat) (l : LeafNode T) : Prop :=
  l.bounds = Bounds3i.new l.origin (l.origin + leafDimensions log2)
  ∧ l.data.length = 2 ^ log2 * 2 ^ log2 * 2 ^ log2

theorem WFLeaf_create [VoxelData T] (log2 : Nat) (key : Vec3i) (level : Nat) :
    WFLeaf log2 (leafCreate (T := T) log2 key level) := by
  constructor
  · rfl
  · simp [leafCreate, leafNew]

theorem leafSetVoxel_fields [VoxelData T] (log2 : Nat) (l : LeafNode T)
    (c : Vec3i) (v : T) :
    (leafSetVoxel log2 l c v).1.bounds = l.bounds
    ∧ (leafSetVoxel log2 l c v).1.origin = l.origin
    ∧ (leafSetVoxel log2 l c v).1.data.length = l.data.length := by
  unfold leafSetVoxel
  split
  · split
    · exact ⟨rfl, rfl, by simp [List.length_set]⟩
    · exact ⟨rfl, rfl, rfl⟩
  · exact ⟨rfl, rfl, rfl⟩

theorem leafRemoveVoxel_fields [VoxelData T] (log2 : Nat) (l : LeafNode T)
    (c : Vec3i) :
    (leafRemoveVoxel log2 l c).1.bounds = l.bounds
    ∧ (leafRemoveVoxel log2 l c).1.origin = l.origin
    ∧ (leafRemoveVoxel log2 l c).1.data.length = l.data.length := by
  unfold leafRemoveVoxel
  split
  · split
    · exact ⟨rfl, rfl, by simp [List.length_set]⟩
    · exact ⟨rfl, rfl, rfl⟩
  · exact ⟨rfl, rfl, rfl⟩

theorem WFLeaf_set [VoxelData T] (log2 : Nat) (l : LeafNode T) (c : Vec3i)
    (v : T) (h : WFLeaf log2 l) : WFLeaf log2 (leafSetVoxel log2 l c v).1 := by
  obtain ⟨h1, h2, h3⟩ := leafSetVoxel_fields log2 l c v
  exact ⟨by rw [h1, h2, h.1], by rw [h3, h.2]⟩

theorem WFLeaf_remove [VoxelData T] (log2 : Nat) (l : LeafNode T)
    (c : Vec3i) (h : WFLeaf log2 l) :
    WFLeaf log2 (leafRemoveVoxel log2 l c).1 := by
  obtain ⟨h1, h2, h3⟩ := leafRemoveVoxel_fields log2 l c
  exact ⟨by rw [h1, h2, h.1], by rw [h3, h.2]⟩

theorem insertKey_mem {l : List (Vec3i × N)} {k : Vec3i} {n : N}
    {p : Vec3i × N} (h : p ∈ insertKey l k n) : p = (k, n) ∨ p ∈ l := by
  induction l with
  | nil => simpa [insertKey] using h
  | cons q rest ih =>
    unfold insertKey at h
    split_ifs at h with hq
    · rcases List.mem_cons.mp h with h1 | h1
      · exact Or.inl h1
      · exact Or.inr (List.mem_cons_of_mem _ h1)
    · rcases List.mem_cons.mp h with h1 | h1
      · exact Or.inr (h1 ▸ List.mem_cons_self _ _)
      · rcases ih h1 with h2 | h2
        · exact Or.inl h2
        · exact Or.inr (List.mem_cons_of_mem _ h2)

theorem lookupKey_mem {l : List (Vec3i × N)} {k : Vec3i} {n : N}
    (h : lookupKey l k = some n) : ∃ k2, (k2, n) ∈ l := by
  unfold lookupKey at h
  rcases hf : l.find? (fun p => p.1 == k) with _ | p
  · rw [hf] at h; cases h
  · rw [hf] at h
    cases h
    exact ⟨p.1, by simpa using List.mem_of_find?_eq_some hf⟩

/-- The children map after `RootNode::set_voxel`: unchanged (elided
write), or one entry replaced/inserted at the snapped key. -/
theorem rootSetVoxel_children [inst : DecidableEq T] (ops : NodeOps T N)
    (r : RootNode T N) (c : Vec3i) (v : T) :
    (rootSetVoxel ops r c v).1.children = r.children
    ∨ (∃ child, lookupKey r.children (snapKey ops.log2_cum c) = some child
        ∧ (rootSetVoxel ops r c v).1.children
          = insertKey r.children (snapKey ops.log2_cum c)
              (ops.set_voxel child c v).1)
    ∨ (rootSetVoxel ops r c v).1.children
        = insertKey r.children (snapKey ops.log2_cum c)
            (ops.set_voxel (ops.create c (r.level + 1) r.background_value)
              c v).1 := by
  unfold rootSetVoxel
  rcases hl : lookupKey r.children (snapKey ops.log2_cum c) with _ | child
  · by_cases hbg : r.background_value ≠ v
    · right; right
      simp only [hl, if_pos hbg]
    · left
      simp only [hl, if_neg hbg]
  · right; left
    exact ⟨child, rfl, by simp only [hl]⟩

/-- The children map after `RootNode::remove_voxel`: unchanged (miss), or
one entry replaced at the snapped key. -/
theorem rootRemoveVoxel_children (ops : NodeOps T N) (r : RootNode T N)
    (c : Vec3i) :
    (rootRemoveVoxel ops r c).1.children = r.children
    ∨ (∃ child, lookupKey r.children (snapKey ops.log2_cum c) = some child
        ∧ (rootRemoveVoxel ops r c).1.children
          = insertKey r.children (snapKey ops.log2_cum c)
              (ops.remove_voxel child c).1) := by
  unfold rootRemoveVoxel
  rcases hl : lookupKey r.children (snapKey ops.log2_cum c) with _ | child
  · left
    simp only [hl]
  · right
    exact ⟨child, rfl, by simp only [hl]⟩

/-- The states of a root-over-leaves tree (the `Default` shape family)
reachable from a fresh volume by point mutations. -/
inductive LeafRootReachable (T : Type) [VoxelData T] [DecidableEq T]
    (log2 : Nat) : RootNode T (LeafNode T) → Prop
  | fresh : LeafRootReachable T log2 (freshRoot T (LeafNode T))
  | set (r : RootNode T (LeafNode T)) (c : Vec3i) (v : T) :
      LeafRootReachable T log2 r →
      LeafRootReachable T log2 (rootSetVoxel (leafOps T log2) r c v).1
  | remove (r : RootNode T (LeafNode T)) (c : Vec3i) :
      LeafRootReachable T log2 r →
      LeafRootReachable T log2 (rootRemoveVoxel (leafOps T log2) r c).1

/-- Every leaf of a reachable root-over-leaves tree is well-formed. -/
theorem reachable_children_WF [instV : VoxelData T] [instD : DecidableEq T]
    (log2 : Nat) (r : RootNode T (LeafNode T))
    (hr : LeafRootReachable T log2 r) : ∀ p ∈ r.children, WFLeaf log2 p.2 := by
  induction hr with
  | fresh => intro p hp; simp [freshRoot] at hp
  | set r c v hr ih =>
    intro p hp
    rcases rootSetVoxel_children (leafOps T log2) r c v
        with hc | ⟨child, hl, hc⟩ | hc
    · rw [hc] at hp
      exact ih p hp
    · rw [hc] at hp
      rcases insertKey_mem hp with h1 | h1
      · obtain ⟨k2, hmem⟩ := lookupKey_mem hl
        have hwf := ih (k2, child) hmem
        rw [h1]
        exact WFLeaf_set log2 child c v hwf
      · exact ih p h1
    · rw [hc] at hp
      rcases insertKey_mem hp with h1 | h1
      · rw [h1]
        exact WFLeaf_set log2 _ c v (WFLeaf_create log2 c (r.level + 1))
      · exact ih p h1
  | remove r c hr ih =>
    intro p hp
    rcases rootRemoveVoxel_children (leafOps T log2) r c
        with hc | ⟨child, hl, hc⟩
    · rw [hc] at hp
      exact ih p hp
    · rw [hc] at hp
      rcases insertKey_mem hp with h1 | h1
      · obtain ⟨k2, hmem⟩ := lookupKey_mem hl
        have hwf := ih (k2, child) hmem
        rw [h1]
        exact WFLeaf_remove log2 child c hwf
      · exact ih p h1

theorem mem_enumFrom_bound {α : Type} (xs : List α) :
    ∀ (n : Nat) (q : Nat × α), q ∈ xs.enumFrom n → q.1 < n + xs.length := by
  induction xs with
  | nil => intro n q h; simp [List.enumFrom] at h
  | cons x rest ih =>
    intro n q h
    rw [List.enumFrom] at h
    rcases List.mem_cons.mp h with h1 | h1
    · rw [h1]; simp
    · have h2 := ih (n + 1) q h1
      simp only [List.length_cons]
      omega

/-- Every coordinate reported by `LeafNode::all_voxels` of a well-formed
leaf lies inside the leaf's stored box. -/
theorem leafAllVoxels_contains (log2 : Nat) (l : LeafNode T)
    (hwf : WFLeaf log2 l) :
    ∀ p ∈ leafAllVoxels log2 l, l.bounds.contains p.1 = true := by
  intro p hp
  unfold leafAllVoxels at hp
  rcases List.mem_filterMap.mp hp with ⟨⟨i, slot⟩, hmem, hmap⟩
  rcases slot with _ | v
  · simp at hmap
  · simp only [Option.map_some, Option.map_some'] at hmap
    have hi : i < l.data.length := by
      have := mem_enumFrom_bound l.data 0 (i, some v) (by simpa [List.enum] using hmem)
      simpa using this
    rw [hwf.2] at hi
    have hd : 0 < 2 ^ log2 := Nat.pos_pow_of_pos log2 (by omega)
    have h1 : i % 2 ^ log2 < 2 ^ log2 := Nat.mod_lt _ hd
    have h2 : i % (2 ^ log2 * 2 ^ log2) / 2 ^ log2 < 2 ^ log2 := by
      have hlt : i % (2 ^ log2 * 2 ^ log2) < 2 ^ log2 * 2 ^ log2 :=
        Nat.mod_lt i (Nat.mul_pos hd hd)
      exact Nat.div_lt_of_lt_mul hlt
    have h3 : i / (2 ^ log2 * 2 ^ log2) < 2 ^ log2 :=
      Nat.div_lt_of_lt_mul hi
    cases hmap
    rw [hwf.1]
    simp only [Bounds3i.contains, Bounds3i.new, leafIndexToCoord,
      leafDimensions, Vec3i.new, Vec3i.add_def]
    simp only [decide_eq_true_eq, Bool.and_eq_true]
    zify at h1 h2 h3
    push_cast
    have hd2 : (0 : Int) < (2 : Int) ^ log2 := by positivity
    have n1 : (0 : Int) ≤ (i : Int) % (2 : Int) ^ log2 :=
      Int.emod_nonneg _ hd2.ne'
    have n2 : (0 : Int) ≤
        ((i : Int) % ((2 : Int) ^ log2 * (2 : Int) ^ log2)) / (2 : Int) ^ log2 :=
      Int.ediv_nonneg (Int.emod_nonneg _ (by positivity)) hd2.le
    have n3 : (0 : Int) ≤ (i : Int) / ((2 : Int) ^ log2 * (2 : Int) ^ log2) :=
      Int.ediv_nonneg (by positivity) (by positivity)
    refine ⟨⟨⟨⟨⟨?_, ?_⟩, ?_⟩, ?_⟩, ?_⟩, ?_⟩ <;> omega

/-- A box with positive extent on every axis. -/
def properB (b : Bounds3i) : Prop :=
  b.min.x < b.max.x ∧ b.min.y < b.max.y ∧ b.min.z < b.max.z

/-- Componentwise box inclusion. -/
def subB (b B : Bounds3i) : Prop :=
  B.min.x ≤ b.min.x ∧ B.min.y ≤ b.min.y ∧ B.min.z ≤ b.min.z
  ∧ b.max.x ≤ B.max.x ∧ b.max.y ≤ B.max.y ∧ b.max.z ≤ B.max.z

theorem properB_not_empty {b : Bounds3i} (h : properB b) :
    b ≠ Bounds3i.empty := by
  intro he
  rw [he] at h
  simp only [properB, Bounds3i.empty] at h
  omega

theorem subB_refl (b : Bounds3i) : subB b b := by
  unfold subB; omega

theorem subB_trans {a b c : Bounds3i} (h1 : subB a b) (h2 : subB b c) :
    subB a c := by
  unfold subB at *; omega

theorem subB_expand_left (b o : Bounds3i) : subB b (b.expand_bounds o) := by
  unfold subB Bounds3i.expand_bounds Vec3i.minv Vec3i.maxv
  dsimp only
  omega

theorem subB_expand_right (b o : Bounds3i) : subB o (b.expand_bounds o) := by
  unfold subB Bounds3i.expand_bounds Vec3i.minv Vec3i.maxv
  dsimp only
  omega

theorem properB_expand (b o : Bounds3i) (hb : properB b) :
    properB (b.expand_bounds o) := by
  unfold properB Bounds3i.expand_bounds Vec3i.minv Vec3i.maxv at *
  dsimp only
  omega

theorem contains_of_subB {b B : Bounds3i} {p : Vec3i} (hsub : subB b B)
    (h : b.contains p = true) : B.contains p = true := by
  unfold Bounds3i.contains at *
  unfold subB at hsub
  simp only [decide_eq_true_eq, Bool.and_eq_true] at *
  omega

theorem foldBounds_aux (bs : List Bounds3i) : ∀ acc : Bounds3i, properB acc →
    properB (bs.foldl boundsStep acc) ∧ subB acc (bs.foldl boundsStep acc)
    ∧ ∀ b ∈ bs, subB b (bs.foldl boundsStep acc) := by
  induction bs with
  | nil => intro acc hacc; exact ⟨hacc, subB_refl acc, by simp⟩
  | cons b rest ih =>
    intro acc hacc
    have hstep : boundsStep acc b = acc.expand_bounds b :=
      if_neg (properB_not_empty hacc)
    rw [List.foldl_cons, hstep]
    obtain ⟨h1, h2, h3⟩ := ih (acc.expand_bounds b) (properB_expand acc b hacc)
    refine ⟨h1, subB_trans (subB_expand_left acc b) h2, ?_⟩
    intro b2 hb2
    rcases List.mem_cons.mp hb2 with h4 | h4
    · subst h4
      exact subB_trans (subB_expand_right acc b2) h2
    · exact h3 b2 h4

/-- Every proper box of the list is included in the
`RootNode::bounds`-style fold of the list. -/
theorem foldBounds_contains (bs : List Bounds3i)
    (hprop : ∀ b ∈ bs, properB b) :
    ∀ b ∈ bs, subB b (bs.foldl boundsStep Bounds3i.empty) := by
  cases bs with
  | nil => simp
  | cons b1 rest =>
    intro b hb
    rw [List.foldl_cons, show boundsStep Bounds3i.empty b1 = b1 from if_pos rfl]
    obtain ⟨h1, h2, h3⟩ :=
      foldBounds_aux rest b1 (hprop b1 (List.mem_cons_self _ _))
    rcases List.mem_cons.mp hb with h4 | h4
    · subst h4
      exact h2
    · exact h3 b h4

theorem properB_of_WFLeaf {log2 : Nat} {l : LeafNode T}
    (h : WFLeaf log2 l) : properB l.bounds := by
  rw [h.1]
  unfold properB Bounds3i.new leafDimensions
  dsimp only [Vec3i.add_def]
  have hpow : (0 : Int) < (2 : Int) ^ log2 := by positivity
  omega

/-! ## Claims -/

/-- C1: the claim states read-after-write correctness for every sequence
of point operations, and the spec, the trait documentation of
`ChildNodeTrait::key` ("the lower left corner of the child node's
bounds") and the parameter name of `LeafNode::create` all make the
snapped key the intended leaf origin; but `RootNode::create_child`
(and `InternalNode::create_child`) pass the raw first-write coordinate to
the leaf factory, so the leaf's stored box is unaligned and later writes
to other coordinates of the same child region are silently dropped.
Failing input (Default shape, `IntVoxel`): `set((1,2,3),2)` then
`set((0,2,3),5)` — both coordinates snap to child key `(0,0,0)` — after
which `get_voxel((0,2,3))` returns the background `0`, not the value `5`
the claim requires; the dropped `set` also returned `None`. -/
theorem C1_read_after_write_failing_input :
    (rootSetVoxel (defaultOps IntVoxel)
      (rootSetVoxel (defaultOps IntVoxel)
        (freshRoot IntVoxel (LeafNode IntVoxel)) ⟨1,2,3⟩ ⟨2⟩).1
      ⟨0,2,3⟩ ⟨5⟩).2 = none
    ∧ rootGetVoxel (defaultOps IntVoxel)
        (rootSetVoxel (defaultOps IntVoxel)
          (rootSetVoxel (defaultOps IntVoxel)
            (freshRoot IntVoxel (LeafNode IntVoxel)) ⟨1,2,3⟩ ⟨2⟩).1
          ⟨0,2,3⟩ ⟨5⟩).1 ⟨0,2,3⟩ = ⟨0⟩
    ∧ (⟨0⟩ : IntVoxel) ≠ ⟨5⟩ := by
  refine ⟨by decide, by decide, by decide⟩

/-- C2: error semantics of the point operations.  Generically over every
tree shape and state: `get_voxel` returns the background when nothing is
stored at the coordinate, and `remove_voxel` returns `None` (leaving the
root unchanged) when no child covers the coordinate; `set_voxel` and
`get_voxel` are total functions of the embedding, so they "never fail".
Concretely, under the Hashx2x1 shape with the `f32`-style payload, the
sequence `set((1,2,3),2); set((1,2,3),5); remove((1,2,3))` returns
`None, Some(2), Some(5)`, after which `active_count() == 0` and
`get_voxel((1,2,3))` returns the background `0`. -/
theorem C2_point_op_error_semantics :
    (∀ (T N : Type) (ops : NodeOps T N) (r : RootNode T N) (c : Vec3i),
      rootGetVoxelOpt ops r c = none →
        rootGetVoxel ops r c = r.background_value)
    ∧ (∀ (T N : Type) (ops : NodeOps T N) (r : RootNode T N) (c : Vec3i),
        rootFindChild ops r c = none →
          rootRemoveVoxel ops r c = (r, none))
    ∧ (rootSetVoxel (hashx2x1Ops ℚ) (freshRoot ℚ _) ⟨1,2,3⟩ 2).2 = none
    ∧ (rootSetVoxel (hashx2x1Ops ℚ)
        (rootSetVoxel (hashx2x1Ops ℚ) (freshRoot ℚ _) ⟨1,2,3⟩ 2).1
        ⟨1,2,3⟩ 5).2 = some 2
    ∧ (rootRemoveVoxel (hashx2x1Ops ℚ)
        (rootSetVoxel (hashx2x1Ops ℚ)
          (rootSetVoxel (hashx2x1Ops ℚ) (freshRoot ℚ _) ⟨1,2,3⟩ 2).1
          ⟨1,2,3⟩ 5).1 ⟨1,2,3⟩).2 = some 5
    ∧ rootActiveCount (hashx2x1Ops ℚ)
        (rootRemoveVoxel (hashx2x1Ops ℚ)
          (rootSetVoxel (hashx2x1Ops ℚ)
            (rootSetVoxel (hashx2x1Ops ℚ) (freshRoot ℚ _) ⟨1,2,3⟩ 2).1
            ⟨1,2,3⟩ 5).1 ⟨1,2,3⟩).1 = 0
    ∧ rootGetVoxel (hashx2x1Ops ℚ)
        (rootRemoveVoxel (hashx2x1Ops ℚ)
          (rootSetVoxel (hashx2x1Ops ℚ)
            (rootSetVoxel (hashx2x1Ops ℚ) (freshRoot ℚ _) ⟨1,2,3⟩ 2).1
            ⟨1,2,3⟩ 5).1 ⟨1,2,3⟩).1 ⟨1,2,3⟩ = 0 := by
  refine ⟨?_, ?_, by decide, by decide, by decide, by decide, by decide⟩
  · intro T N ops r c h
    simp [rootGetVoxel, h]
  · intro T N ops r c h
    have h2 : lookupKey r.children (snapKey ops.log2_cum c) = none := h
    simp [rootRemoveVoxel, h2]

/-- C2 witness: the generic conjuncts applied at a concrete fresh Default
volume and coordinate. -/
theorem C2_point_op_error_semantics_witness :
    rootGetVoxel (defaultOps IntVoxel) (freshRoot IntVoxel (LeafNode IntVoxel))
        ⟨0,0,0⟩ = (freshRoot IntVoxel (LeafNode IntVoxel)).background_value
    ∧ rootRemoveVoxel (defaultOps IntVoxel)
        (freshRoot IntVoxel (LeafNode IntVoxel)) ⟨1,1,1⟩
        = (freshRoot IntVoxel (LeafNode IntVoxel), none) :=
  ⟨C2_point_op_error_semantics.1 IntVoxel (LeafNode IntVoxel)
      (defaultOps IntVoxel) (freshRoot IntVoxel (LeafNode IntVoxel)) ⟨0,0,0⟩
      (by decide),
   C2_point_op_error_semantics.2.1 IntVoxel (LeafNode IntVoxel)
      (defaultOps IntVoxel) (freshRoot IntVoxel (LeafNode IntVoxel)) ⟨1,1,1⟩
      (by decide)⟩

/-- C3: root construction (`RootNode::default`) rejects every payload
type whose background is active (the `panic!`, embedded as
`Except.error`), and succeeds for every payload type whose background is
inactive, producing level 0, an empty child map, and `active_count == 0`
for every tree shape. -/
theorem C3_root_rejects_active_background :
    (∀ (T N : Type) [inst : VoxelData T],
      VoxelData.is_active (VoxelData.background : T) = true →
        rootDefault T N = Except.error "Background value is active")
    ∧ (∀ (T N : Type) [inst : VoxelData T],
        VoxelData.is_active (VoxelData.background : T) = false →
          rootDefault T N = Except.ok (freshRoot T N))
    ∧ (∀ (T N : Type) [inst : VoxelData T] (ops : NodeOps T N),
        rootActiveCount ops (freshRoot T N) = 0) := by
  refine ⟨?_, ?_, ?_⟩
  · intro T N inst h
    simp [rootDefault, h]
  · intro T N inst h
    simp [rootDefault, h, freshRoot]
  · intro T N inst ops
    simp [rootActiveCount, freshRoot]

/-- C3 witness: the rejection applied at the ill-formed payload
`ActiveBgVoxel`, the success applied at `IntVoxel`. -/
theorem C3_root_rejects_active_background_witness :
    rootDefault ActiveBgVoxel (LeafNode ActiveBgVoxel)
        = Except.error "Background value is active"
    ∧ rootDefault IntVoxel (LeafNode IntVoxel)
        = Except.ok (freshRoot IntVoxel (LeafNode IntVoxel))
    ∧ rootActiveCount (defaultOps IntVoxel)
        (freshRoot IntVoxel (LeafNode IntVoxel)) = 0 :=
  ⟨C3_root_rejects_active_background.1 ActiveBgVoxel (LeafNode ActiveBgVoxel)
      (by decide),
   C3_root_rejects_active_background.2.1 IntVoxel (LeafNode IntVoxel)
      (by decide),
   C3_root_rejects_active_background.2.2 IntVoxel (LeafNode IntVoxel)
      (defaultOps IntVoxel)⟩

/-- C4 counterexample: the claimed invariant "no stored voxel slot holds
a value equal to the background at its owning node" fails.  Under the
Default shape with `IntVoxel`, `set((1,2,3),2)` creates a leaf covering
`(2,2,3)`, and `set((2,2,3),0)` then stores the background value `0` in
that leaf (the leaf-level `set_voxel` does not elide background writes):
afterwards the slot at `(2,2,3)` is present and holds `0`, the owning
node's background, so `total_count` is 2 while `active_count` is 1. -/
theorem C4_stored_background_counterexample :
    rootGetVoxelOpt (defaultOps IntVoxel)
        (rootSetVoxel (defaultOps IntVoxel)
          (rootSetVoxel (defaultOps IntVoxel)
            (freshRoot IntVoxel (LeafNode IntVoxel)) ⟨1,2,3⟩ ⟨2⟩).1
          ⟨2,2,3⟩ ⟨0⟩).1 ⟨2,2,3⟩ = some ⟨0⟩
    ∧ rootTotalCount (defaultOps IntVoxel)
        (rootSetVoxel (defaultOps IntVoxel)
          (rootSetVoxel (defaultOps IntVoxel)
            (freshRoot IntVoxel (LeafNode IntVoxel)) ⟨1,2,3⟩ ⟨2⟩).1
          ⟨2,2,3⟩ ⟨0⟩).1 = 2
    ∧ rootActiveCount (defaultOps IntVoxel)
        (rootSetVoxel (defaultOps IntVoxel)
          (rootSetVoxel (defaultOps IntVoxel)
            (freshRoot IntVoxel (LeafNode IntVoxel)) ⟨1,2,3⟩ ⟨2⟩).1
          ⟨2,2,3⟩ ⟨0⟩).1 = 1
    ∧ (VoxelData.background : IntVoxel) = ⟨0⟩ := by
  refine ⟨by decide, by decide, by decide, by decide⟩

/-- C4 amended: background-write elision happens only where no covering
child exists: for every shape and state, calling `set_voxel(c, bg)` with
the node's background value when no child covers `c` changes nothing —
no node is created (`child_count` unchanged, indeed the whole root is
unchanged) and `None` is returned.  (Once a leaf covering `c` exists, a
background write IS stored, per the counterexample.) -/
theorem C4_background_elision_amended :
    ∀ (T N : Type) [inst : DecidableEq T] (ops : NodeOps T N)
      (r : RootNode T N) (c : Vec3i),
      rootFindChild ops r c = none →
        rootSetVoxel ops r c r.background_value = (r, none)
        ∧ rootChildCount (rootSetVoxel ops r c r.background_value).1
            = rootChildCount r := by
  intro T N inst ops r c h
  have h2 : lookupKey r.children (snapKey ops.log2_cum c) = none := h
  constructor
  · simp [rootSetVoxel, h2]
  · simp [rootSetVoxel, h2]

/-- C4 amended witness: elision on a fresh Hashx2x1 volume at `(1,2,3)`. -/
theorem C4_background_elision_amended_witness :
    rootSetVoxel (hashx2x1Ops IntVoxel)
        (freshRoot IntVoxel (InternalNode IntVoxel (LeafNode IntVoxel)))
        ⟨1,2,3⟩
        (freshRoot IntVoxel
          (InternalNode IntVoxel (LeafNode IntVoxel))).background_value
      = (freshRoot IntVoxel (InternalNode IntVoxel (LeafNode IntVoxel)), none) :=
  (C4_background_elision_amended IntVoxel
    (InternalNode IntVoxel (LeafNode IntVoxel)) (hashx2x1Ops IntVoxel)
    (freshRoot IntVoxel (InternalNode IntVoxel (LeafNode IntVoxel)))
    ⟨1,2,3⟩ (by decide)).1

/-- C5: child-key snapping.  For every coordinate and cumulative LOG2
`L`, the child key is componentwise `c & !((1 << L) - 1)` (two's
complement); the Hashx5x4 shape has cumulative LOG2 9, and a write at
`(31,-31,-65)` on a fresh Hashx5x4 volume selects exactly the child key
`(0,-512,-512)`. -/
theorem C5_child_key_snapping :
    (∀ (L : Nat) (c : Vec3i),
      snapKey L c =
        ⟨i32and c.x (i32not ((2 : Int) ^ L - 1)),
         i32and c.y (i32not ((2 : Int) ^ L - 1)),
         i32and c.z (i32not ((2 : Int) ^ L - 1))⟩)
    ∧ (hashx5x4Ops IntVoxel).log2_cum = 9
    ∧ snapKey 9 ⟨31, -31, -65⟩ = ⟨0, -512, -512⟩
    ∧ ((rootSetVoxel (hashx5x4Ops IntVoxel)
          (freshRoot IntVoxel (InternalNode IntVoxel (LeafNode IntVoxel)))
          ⟨31,-31,-65⟩ ⟨1⟩).1.children.map Prod.fst) = [⟨0,-512,-512⟩] := by
  refine ⟨fun L c => rfl, by decide, by decide, by decide⟩

/-- C10: when the half-open voxel box `[voxel(min_w), voxel(max_w))` is
empty on some axis, `fill_bounds` still invokes the generator at least
once, at `voxel(min_w)`: the coordinate iterator yields its `min`
unconditionally before any bound is checked, so `voxel(min_w)` heads the
visited list, and a generator accepting that position makes the returned
count at least 1. -/
theorem C10_fill_bounds_empty_box_probe :
    ∀ (T N : Type) [inst : DecidableEq T] (ops : NodeOps T N)
      (r : RootNode T N) (size : ℚ) (minw maxw : Vec3q)
      (gen : Vec3q → Option T),
      ((worldToVoxelCoord size maxw).x ≤ (worldToVoxelCoord size minw).x
        ∨ (worldToVoxelCoord size maxw).y ≤ (worldToVoxelCoord size minw).y
        ∨ (worldToVoxelCoord size maxw).z ≤ (worldToVoxelCoord size minw).z) →
      (voxelCoordList (worldToVoxelCoord size minw)
          (worldToVoxelCoord size maxw)).head?
          = some (worldToVoxelCoord size minw)
      ∧ ((gen (voxelToWorldCoord size (worldToVoxelCoord size minw))).isSome →
          1 ≤ (fillBounds ops r size minw maxw gen).2) := by
  intro T N inst ops r size minw maxw gen _hempty
  constructor
  · exact coordIterFrom_head _ _ _
  · intro hsome
    show 1 ≤ ((voxelCoordList (worldToVoxelCoord size minw)
        (worldToVoxelCoord size maxw)).foldl (fillStep ops gen size) (r, 0)).2
    obtain ⟨rest, hrest⟩ := coordIterFrom_cons (worldToVoxelCoord size minw)
      (worldToVoxelCoord size maxw) (worldToVoxelCoord size minw)
    unfold voxelCoordList
    rw [hrest]
    simp only [List.foldl_cons]
    refine Nat.le_trans ?_ (fillStep_count_mono ops gen size rest _)
    unfold fillStep
    rcases hg : gen (voxelToWorldCoord size (worldToVoxelCoord size minw)) with _ | v
    · rw [hg] at hsome; simp at hsome
    · simp

/-- C10 witness: `min_w = max_w = (0,0,0)` with unit voxel size — the box
is empty, yet the visited list heads with `(0,0,0)` and an
always-accepting generator is counted once. -/
theorem C10_fill_bounds_empty_box_probe_witness :
    (voxelCoordList (worldToVoxelCoord 1 ⟨0,0,0⟩)
        (worldToVoxelCoord 1 ⟨0,0,0⟩)).head?
        = some (worldToVoxelCoord 1 ⟨0,0,0⟩)
    ∧ 1 ≤ (fillBounds (defaultOps IntVoxel)
          (freshRoot IntVoxel (LeafNode IntVoxel)) 1 ⟨0,0,0⟩ ⟨0,0,0⟩
          (fun _ => some ⟨1⟩)).2 := by
  have h := C10_fill_bounds_empty_box_probe IntVoxel (LeafNode IntVoxel)
    (defaultOps IntVoxel) (freshRoot IntVoxel (LeafNode IntVoxel)) 1
    ⟨0,0,0⟩ ⟨0,0,0⟩ (fun _ => some ⟨1⟩) (Or.inl (le_refl _))
  exact ⟨h.1, h.2 (by decide)⟩

/-- C9: edge interpolation.  For arbitrary corner values `a` (tail) and
`b` (head) of a processed edge: the factor is `0.5` when
`|b - a| < 10⁻⁶` and otherwise `(τ - a)/(b - a)` clamped to `[0,1]`; it
always lies in `[0,1]`, so the emitted vertex — which equals
`pos1 + t·(pos2 - pos1)` for the two corner positions scaled by
`leaf_voxel_size` — lies on the world-space segment between them; and
when `|b - a| ≥ 10⁻⁶`, `τ = a` gives `t = 0` and `τ = b` gives `t = 1`.
(`f32` arithmetic is embedded as exact rational arithmetic.) -/
theorem C9_edge_interpolation :
    (∀ a b iso : ℚ,
      (|b - a| < 1 / 1000000 → interpFactor a b iso = 1 / 2)
      ∧ (¬ |b - a| < 1 / 1000000 →
          interpFactor a b iso = clampQ ((iso - a) / (b - a)) 0 1)
      ∧ 0 ≤ interpFactor a b iso ∧ interpFactor a b iso ≤ 1
      ∧ (1 / 1000000 ≤ |b - a| →
          (iso = a → interpFactor a b iso = 0)
          ∧ (iso = b → interpFactor a b iso = 1)))
    ∧ (∀ (et : Nat → Nat × Nat) (values : List ℚ) (coord : Vec3i)
        (edge : Nat) (iso leafSize : ℚ),
        interpolateEdgeVertex et values coord edge iso leafSize =
          ((coord + cornerOffset (et edge).1).as_vec3f.scale leafSize) +
          (((coord + cornerOffset (et edge).2).as_vec3f.scale leafSize) -
            ((coord + cornerOffset (et edge).1).as_vec3f.scale leafSize)).scale
            (interpFactor (values.getD (et edge).1 0)
              (values.getD (et edge).2 0) iso)) := by
  constructor
  · intro a b iso
    refine ⟨?_, ?_, ?_, ?_, ?_⟩
    · intro h
      simp only [interpFactor, if_pos h, clampQ]
      norm_num
    · intro h
      simp only [interpFactor, if_neg h]
    · simp only [interpFactor, clampQ]
      exact le_min (le_max_right _ _) zero_le_one
    · simp only [interpFactor, clampQ]
      exact min_le_right _ _
    · intro h
      have hne : b - a ≠ 0 := by
        intro h0
        rw [h0] at h
        norm_num at h
      have hnlt : ¬ |b - a| < 1 / 1000000 := not_lt.mpr h
      constructor
      · intro hiso
        simp only [interpFactor, if_neg hnlt, hiso, sub_self, zero_div, clampQ]
        norm_num
      · intro hiso
        simp only [interpFactor, if_neg hnlt, hiso, clampQ]
        rw [div_self hne]
        norm_num
  · intro et values coord edge iso leafSize
    rfl

/-- C9 witness: the conditional facts at concrete values
(`a = 0, b = 1`): factor `1/2` needs close corners, `τ = a` gives 0,
`τ = b` gives 1. -/
theorem C9_edge_interpolation_witness :
    interpFactor 0 0 (1 / 2) = 1 / 2
    ∧ interpFactor 0 1 (1 / 4) = clampQ ((1 / 4 - 0) / (1 - 0)) 0 1
    ∧ interpFactor 0 1 0 = 0
    ∧ interpFactor 0 1 1 = 1 :=
  ⟨((C9_edge_interpolation.1 0 0 (1 / 2)).1) (by norm_num),
   ((C9_edge_interpolation.1 0 1 (1 / 4)).2.1) (by norm_num),
   (((C9_edge_interpolation.1 0 1 0).2.2.2.2) (by norm_num)).1 rfl,
   (((C9_edge_interpolation.1 0 1 1).2.2.2.2) (by norm_num)).2 rfl⟩

/-- C8: mesher soundness.  For every volume lookup `g`, signed-distance
reading `sd`, iso level, and every edge-mask / triangle / edge table:
a cube is skipped (the mesh is unchanged) whenever some corner voxel is
not active; when all corners are active the cube index has bit `i` set
exactly when the corner's signed distance is below the iso level (and is
an 8-bit value); cubes with index 0 or 255 emit nothing; and processing
preserves mesh well-formedness, so every emitted triangle references
three valid vertex indices of the output mesh. -/
theorem C8_mesher_soundness :
    ∀ (T : Type) [inst : VoxelData T] (g : Vec3i → T) (sd : T → ℚ)
      (em : Nat → Nat) (tt : Nat → Nat → Int) (et : Nat → Nat × Nat)
      (mesh : Mesh) (coord : Vec3i) (iso leafSize : ℚ),
      ((cornerOffsets.map fun off => g (coord + off)).all
          VoxelData.is_active = false →
        processCube g sd em tt et mesh coord iso leafSize = mesh)
      ∧ (∀ values, getCubeCornerValues g sd coord = some values →
          (∀ i, i < 8 →
            bitSet (calculateCubeIndex values iso) i
              = decide (values.getD i 0 < iso))
          ∧ calculateCubeIndex values iso < 256)
      ∧ (∀ values, getCubeCornerValues g sd coord = some values →
          (calculateCubeIndex values iso = 0
            ∨ calculateCubeIndex values iso = 255) →
          processCube g sd em tt et mesh coord iso leafSize = mesh)
      ∧ (meshWF mesh →
          meshWF (processCube g sd em tt et mesh coord iso leafSize)) := by
  intro T inst g sd em tt et mesh coord iso leafSize
  refine ⟨?_, ?_, ?_, ?_⟩
  · intro h
    have hnone : getCubeCornerValues g sd coord = none := by
      simp only [getCubeCornerValues]
      rw [h]
      rfl
    unfold processCube
    rw [hnone]
  · intro values hv
    have hlen : values.length = 8 := by
      simp only [getCubeCornerValues] at hv
      split_ifs at hv with hall
      cases hv
      simp [cornerOffsets]
    constructor
    · intro i hi
      rw [calculateCubeIndex_eq_cubeBits]
      exact cubeBits_testBit iso values i (by omega)
    · rw [calculateCubeIndex_eq_cubeBits]
      have h := cubeBits_lt iso values
      rw [hlen] at h
      exact h
  · intro values hv hidx
    unfold processCube
    rw [hv]
    simp only [if_pos hidx]
  · intro hwf
    unfold processCube
    rcases hv : getCubeCornerValues g sd coord with _ | values
    · exact hwf
    · by_cases hidx : calculateCubeIndex values iso = 0
        ∨ calculateCubeIndex values iso = 255
      · simp only [if_pos hidx]
        exact hwf
      · simp only [if_neg hidx]
        exact emitTriangles_meshWF _ _ 16 0 mesh (by omega) hwf

/-- C8 witness: the parts applied concretely — an all-inactive volume is
skipped; a constant-distance active volume with iso above every corner
yields cube index 255 and is skipped; the empty mesh stays well-formed. -/
theorem C8_mesher_soundness_witness :
    processCube (fun _ : Vec3i => (0 : ℚ)) id (fun _ => 0) (fun _ _ => -1)
        edgeVertexIndices meshNew ⟨0,0,0⟩ 0 1 = meshNew
    ∧ (∀ i, i < 8 →
        bitSet (calculateCubeIndex (List.replicate 8 (1 : ℚ)) 2) i
          = decide ((List.replicate 8 (1 : ℚ)).getD i 0 < 2))
    ∧ processCube (fun _ : Vec3i => (1 : ℚ)) id (fun _ => 0) (fun _ _ => -1)
        edgeVertexIndices meshNew ⟨0,0,0⟩ 2 1 = meshNew
    ∧ meshWF (processCube (fun _ : Vec3i => (1 : ℚ)) id (fun _ => 0)
        (fun _ _ => -1) edgeVertexIndices meshNew ⟨0,0,0⟩ 2 1) := by
  have h0 := C8_mesher_soundness ℚ (fun _ => (0 : ℚ)) id (fun _ => 0)
    (fun _ _ => -1) edgeVertexIndices meshNew ⟨0,0,0⟩ 0 1
  have h1 := C8_mesher_soundness ℚ (fun _ => (1 : ℚ)) id (fun _ => 0)
    (fun _ _ => -1) edgeVertexIndices meshNew ⟨0,0,0⟩ 2 1
  refine ⟨h0.1 (by decide), ?_, ?_, ?_⟩
  · intro i hi
    exact ((h1.2.1 (List.replicate 8 (1 : ℚ)) (by decide)).1) i hi
  · exact h1.2.2.1 (List.replicate 8 (1 : ℚ)) (by decide) (by decide)
  · exact h1.2.2.2 (fun t ht => by simp [meshNew] at ht)

/-- C6 counterexample: the claim as stated fails when the half-open box
is empty.  With unit voxel size and `min_w = max_w = (0,0,0)` the box
`[(0,0,0), (0,0,0))` is empty, so the claimed enumeration would accept no
calls; but `fill_bounds` visits `(0,0,0)` anyway and returns count 1 for
an always-accepting generator, while the spec-described fold
(`fillBoundsSpec`) returns 0. -/
theorem C6_fill_bounds_counterexample :
    (fillBounds (defaultOps IntVoxel) (freshRoot IntVoxel (LeafNode IntVoxel))
        1 ⟨0,0,0⟩ ⟨0,0,0⟩ (fun _ => some ⟨1⟩)).2 = 1
    ∧ (fillBoundsSpec (defaultOps IntVoxel)
        (freshRoot IntVoxel (LeafNode IntVoxel))
        1 ⟨0,0,0⟩ ⟨0,0,0⟩ (fun _ => some ⟨1⟩)).2 = 0 := by
  have hconv : worldToVoxelCoord 1 (⟨0,0,0⟩ : Vec3q) = ⟨0,0,0⟩ := by
    norm_num [worldToVoxelCoord, Vec3q.scale, Vec3q.as_vec3i, ratTrunc]
  have hlist : voxelCoordList ⟨0,0,0⟩ ⟨0,0,0⟩ = [⟨0,0,0⟩] := by
    rw [voxelCoordList, coordIterFrom]
    rfl
  have hbox : boxList (⟨0,0,0⟩ : Vec3i) ⟨0,0,0⟩ = [] := by
    simp [boxList, rangeInt_neg 0 0 (by omega)]
  constructor
  · show ((voxelCoordList (worldToVoxelCoord 1 ⟨0,0,0⟩)
        (worldToVoxelCoord 1 ⟨0,0,0⟩)).foldl
        (fillStep (defaultOps IntVoxel) (fun _ => some ⟨1⟩) 1)
        (freshRoot IntVoxel (LeafNode IntVoxel), 0)).2 = 1
    rw [hconv, hlist]
    simp [fillStep]
  · show ((boxList (worldToVoxelCoord 1 ⟨0,0,0⟩)
        (worldToVoxelCoord 1 ⟨0,0,0⟩)).foldl
        (fillStep (defaultOps IntVoxel) (fun _ => some ⟨1⟩) 1)
        (freshRoot IntVoxel (LeafNode IntVoxel), 0)).2 = 0
    rw [hconv, hbox]
    simp

/-- C6 amended: when the half-open voxel box `[voxel(min_w), voxel(max_w))`
is nonempty on every axis, `fill_bounds` behaves exactly as the spec
describes — it enumerates exactly that box in x-fastest, then y, then z
order (folding the same per-coordinate step: invoke the generator at the
coordinate's world position, `set_voxel` exactly on acceptance), and the
returned count is the number of enumerated coordinates the generator
accepts.  (When the box is empty on some axis, extra coordinates are
visited — see the counterexample and C10.) -/
theorem C6_fill_bounds_amended :
    ∀ (T N : Type) [inst : DecidableEq T] (ops : NodeOps T N)
      (r : RootNode T N) (size : ℚ) (minw maxw : Vec3q)
      (gen : Vec3q → Option T),
      (worldToVoxelCoord size minw).x < (worldToVoxelCoord size maxw).x →
      (worldToVoxelCoord size minw).y < (worldToVoxelCoord size maxw).y →
      (worldToVoxelCoord size minw).z < (worldToVoxelCoord size maxw).z →
      fillBounds ops r size minw maxw gen
          = fillBoundsSpec ops r size minw maxw gen
      ∧ (fillBounds ops r size minw maxw gen).2
          = (boxList (worldToVoxelCoord size minw)
              (worldToVoxelCoord size maxw)).countP
              (fun c => (gen (voxelToWorldCoord size c)).isSome) := by
  intro T N inst ops r size minw maxw gen hx hy hz
  have hlist := voxelCoordList_eq_boxList _ _ hx hy hz
  have hfb : fillBounds ops r size minw maxw gen
      = (boxList (worldToVoxelCoord size minw)
          (worldToVoxelCoord size maxw)).foldl
          (fillStep ops gen size) (r, 0) := by
    show (voxelCoordList (worldToVoxelCoord size minw)
        (worldToVoxelCoord size maxw)).foldl (fillStep ops gen size) (r, 0) = _
    rw [hlist]
  refine ⟨by rw [hfb]; rfl, ?_⟩
  rw [hfb, fillStep_count]
  simp

/-- C6 amended witness: a nonempty unit box, on which `fill_bounds`
coincides with the spec-side fold. -/
theorem C6_fill_bounds_amended_witness :
    fillBounds (defaultOps IntVoxel) (freshRoot IntVoxel (LeafNode IntVoxel))
        1 ⟨0,0,0⟩ ⟨1,1,1⟩ (fun _ => some ⟨1⟩)
      = fillBoundsSpec (defaultOps IntVoxel)
        (freshRoot IntVoxel (LeafNode IntVoxel))
        1 ⟨0,0,0⟩ ⟨1,1,1⟩ (fun _ => some ⟨1⟩) :=
  (C6_fill_bounds_amended IntVoxel (LeafNode IntVoxel) (defaultOps IntVoxel)
    (freshRoot IntVoxel (LeafNode IntVoxel)) 1 ⟨0,0,0⟩ ⟨1,1,1⟩
    (fun _ => some ⟨1⟩)
    (by norm_num [worldToVoxelCoord, Vec3q.scale, Vec3q.as_vec3i, ratTrunc])
    (by norm_num [worldToVoxelCoord, Vec3q.scale, Vec3q.as_vec3i, ratTrunc])
    (by norm_num [worldToVoxelCoord, Vec3q.scale, Vec3q.as_vec3i, ratTrunc])).1

/-- C7 counterexample: the claimed containment of active voxels in
`bounds()` fails.  Under the Hashx2x1 shape, `set((7,7,7), 2.0)` creates
a leaf whose unsnapped block `[(7,7,7), (9,9,9))` overhangs the internal
node's box `[(0,0,0), (8,8,8))`; the active-voxel iterator then reports
the voxel at coordinate `(8,8,8)` (reconstructed from the unaligned leaf
origin), which `bounds()` — the internal node's box — does not contain. -/
theorem C7_bounds_containment_counterexample :
    ((⟨⟨8,8,8⟩, (2 : ℚ)⟩ : Vec3i × ℚ) ∈ rootActiveVoxels (hashx2x1Ops ℚ)
        (rootSetVoxel (hashx2x1Ops ℚ)
          (freshRoot ℚ (InternalNode ℚ (LeafNode ℚ))) ⟨7,7,7⟩ 2).1)
    ∧ (rootBounds (hashx2x1Ops ℚ)
        (rootSetVoxel (hashx2x1Ops ℚ)
          (freshRoot ℚ (InternalNode ℚ (LeafNode ℚ))) ⟨7,7,7⟩ 2).1).contains
        ⟨8,8,8⟩ = false := by
  refine ⟨by decide, by decide⟩

/-- C7 amended: `bounds()` returns the empty sentinel exactly on a
childless tree, and otherwise the fold of the children's node boxes —
the union of child blocks, not a box tight to the active voxels.  For the
root-over-leaves shapes (the `Default` family), every pair yielded by the
active-voxel iterator of any reachable state does satisfy
`bounds().contains(c)`; under shapes with internal nodes the containment
can fail (see the counterexample), because an unsnapped leaf block may
overhang its internal node's box. -/
theorem C7_bounds_amended :
    (∀ (T N : Type) (ops : NodeOps T N) (r : RootNode T N),
      r.children = [] → rootBounds ops r = Bounds3i.empty)
    ∧ (∀ (T : Type) [instV : VoxelData T] [instD : DecidableEq T]
        (log2 : Nat) (r : RootNode T (LeafNode T)),
        LeafRootReachable T log2 r →
        ∀ p ∈ rootActiveVoxels (leafOps T log2) r,
          (rootBounds (leafOps T log2) r).contains p.1 = true) := by
  constructor
  · intro T N ops r h
    simp [rootBounds, h]
  · intro T instV instD log2 r hr p hp
    have hWF := reachable_children_WF log2 r hr
    unfold rootActiveVoxels at hp
    rcases List.mem_flatMap.mp hp with ⟨q, hq, hpq⟩
    have hWFq := hWF q hq
    have hcont : q.2.bounds.contains p.1 = true := by
      apply leafAllVoxels_contains log2 q.2 hWFq
      exact List.mem_of_mem_filter hpq
    have hne : ¬ r.children.isEmpty = true := by
      intro h0
      rw [List.isEmpty_iff] at h0
      rw [h0] at hq
      simp at hq
    have hfold : rootBounds (leafOps T log2) r
        = (r.children.map fun kv => (leafOps T log2).bounds kv.2).foldl
            boundsStep Bounds3i.empty := by
      unfold rootBounds
      rw [if_neg hne]
    have hmem : q.2.bounds ∈ r.children.map
        fun kv => (leafOps T log2).bounds kv.2 :=
      List.mem_map.mpr ⟨q, hq, rfl⟩
    have hprop : ∀ b ∈ r.children.map fun kv => (leafOps T log2).bounds kv.2,
        properB b := by
      intro b hb
      rcases List.mem_map.mp hb with ⟨q2, hq2, hbq⟩
      rw [← hbq]
      exact properB_of_WFLeaf (hWF q2 hq2)
    have hsub := foldBounds_contains _ hprop _ hmem
    rw [hfold]
    exact contains_of_subB hsub hcont

/-- C7 amended witness: a fresh Default volume has sentinel bounds; after
one write its single active voxel is contained in `bounds()`. -/
theorem C7_bounds_amended_witness :
    rootBounds (defaultOps IntVoxel) (freshRoot IntVoxel (LeafNode IntVoxel))
        = Bounds3i.empty
    ∧ (rootBounds (leafOps IntVoxel 2)
        (rootSetVoxel (leafOps IntVoxel 2)
          (freshRoot IntVoxel (LeafNode IntVoxel)) ⟨1,2,3⟩ ⟨2⟩).1).contains
        (⟨2,4,6⟩ : Vec3i) = true :=
  ⟨C7_bounds_amended.1 IntVoxel (LeafNode IntVoxel) (defaultOps IntVoxel)
      (freshRoot IntVoxel (LeafNode IntVoxel)) rfl,
   C7_bounds_amended.2 IntVoxel 2
      (rootSetVoxel (leafOps IntVoxel 2)
        (freshRoot IntVoxel (LeafNode IntVoxel)) ⟨1,2,3⟩ ⟨2⟩).1
      (LeafRootReachable.set _ ⟨1,2,3⟩ ⟨2⟩ LeafRootReachable.fresh)
      (⟨2,4,6⟩, ⟨2⟩) (by decide)⟩

end Yanvox


